import Mathlib

/-!
Verification of the sentence-viewer response processors
(`search/web_app/response_processors.py`).

The development shallowly embeds the `SentenceViewer` methods:

* the match-offset extractor `retrieve_highlighted_words`,
* the popup builders `build_ana_div` / `build_ana_popup` /
  `prepare_analyses` / `build_span`,
* the highlighter normalizer `add_highlighted_offsets`,
* the sweep `process_sentence`, and the batch entry points
  `process_sent_json` / `process_word_json`.

Python strings are `List Char` / `String`; Python dicts are association
lists; Python sets are duplicate-free lists (insertion order is a model
choice, Python set order is unspecified); exceptions are modelled with
`Except PyErr`.  The sweep output is instrumented as a list of `Piece`s so
that inserted markup and original characters can be told apart; the
rendered string is the flattening of that list.
-/

namespace Tsakorpus

/-- Errors a faithful embedding of the Python code can raise. -/
inductive PyErr where
  | keyError (k : String)
  | typeError
deriving Repr, DecidableEq

/-! ### Association lists (Python dicts) and list-sets (Python sets) -/

/-- First-occurrence lookup in an association list, like `d[k]` / `k in d`. -/
def lookupA {α β : Type} [DecidableEq α] (k : α) : List (α × β) → Option β
  | [] => none
  | (a, b) :: t => if a = k then some b else lookupA k t

/-- Replace the value stored under key `k` (first occurrence). -/
def updateA {α β : Type} [DecidableEq α] (k : α) (nv : β) :
    List (α × β) → List (α × β)
  | [] => []
  | (a, b) :: t => if a = k then (a, nv) :: t else (a, b) :: updateA k nv t

/-- Set insertion for a duplicate-free list model of a Python set. -/
def setIns {α : Type} [DecidableEq α] (x : α) (s : List α) : List α :=
  if x ∈ s then s else s ++ [x]

/-- Set union (`s |= t`). -/
def setUnion {α : Type} [DecidableEq α] (s t : List α) : List α :=
  t.foldl (fun acc x => setIns x acc) s

/-- Set difference (`s -= t`). -/
def setDiff {α : Type} [DecidableEq α] (s t : List α) : List α :=
  s.filter (fun x => x ∉ t)

/-- Add `v` to the set stored at key `k`, creating the entry when missing
(the `try: d[k].add(v) except KeyError: d[k] = {v}` idiom). -/
def mapAdd {α β : Type} [DecidableEq α] [DecidableEq β]
    (m : List (α × List β)) (k : α) (v : β) : List (α × List β) :=
  match lookupA k m with
  | some s => updateA k (setIns v s) m
  | none => m ++ [(k, [v])]

/-! ### Decimal rendering and parsing (`str(i)` and `int(s)`) -/

/-- Decimal digits of a natural number, most significant first. -/
def natDigits (n : Nat) : List Char :=
  if h : n < 10 then [Char.ofNat (48 + n)]
  else natDigits (n / 10) ++ [Char.ofNat (48 + n % 10)]
termination_by n
decreasing_by exact Nat.div_lt_self (by omega) (by omega)

/-- Model of Python `str` on a non-negative integer. -/
def natToStr (n : Nat) : String := String.mk (natDigits n)

/-- Model of Python `str` on an integer. -/
def intToStr (i : Int) : String :=
  if i < 0 then "-" ++ natToStr i.natAbs else natToStr i.natAbs

/-- Numeric value of a decimal digit character. -/
def digitVal (c : Char) : Nat := c.toNat - 48

/-- Model of Python `int` on a string of decimal digits. -/
def digitsToNat (l : List Char) : Nat :=
  l.foldl (fun a c => 10 * a + digitVal c) 0

/-- Model of `re.search('^w[0-9]+$', k)` succeeding. -/
def isTermKey (s : String) : Bool :=
  match s.toList with
  | 'w' :: ds => !ds.isEmpty && ds.all (·.isDigit)
  | _ => false

/-- Model of `rxWordNo.search(iStr)` (`^w[0-9]+_([0-9]+)$`) followed by
`int(m.group(1))`: returns the number after the underscore. -/
def parseWordNo (s : String) : Option Nat :=
  match s.toList with
  | 'w' :: rest =>
    let d1 := rest.takeWhile (·.isDigit)
    let r2 := rest.dropWhile (·.isDigit)
    if d1.isEmpty then none
    else
      match r2 with
      | '_' :: d2 =>
        if !d2.isEmpty && d2.all (·.isDigit) then some (digitsToNat d2) else none
      | _ => none
  | _ => none

/-! ### Attribute escaping -/

/-- One `str.replace` pass with a single-character needle. -/
def replaceChar (a : Char) (rep : List Char) : List Char → List Char
  | [] => []
  | c :: t => (if c = a then rep else [c]) ++ replaceChar a rep t

/-- The escape applied by `prepare_analyses` (line 83) and `build_span`
(line 87): `replace('"', "&quot;").replace('<', "&lt;").replace('>', "&gt;")`.
Note that `&` is not rewritten. -/
def escChars (l : List Char) : List Char :=
  replaceChar '>' ("&gt;".toList)
    (replaceChar '<' ("&lt;".toList)
      (replaceChar '"' ("&quot;".toList) l))

/-- String-level version of `escChars`. -/
def escapeAttr (s : String) : String := String.mk (escChars s.toList)

/-- Substring test on character lists (Python `in` on strings). -/
def containsSub (pat : List Char) : List Char → Bool
  | [] => pat.isEmpty
  | c :: t => pat.isPrefixOf (c :: t) || containsSub pat t

/-! ### Untyped JSON-like values (the schema-free tree walked by
`retrieve_highlighted_words`) -/

/-- Python values occurring in an Elasticsearch `inner_hits` tree. -/
inductive JVal where
  | null
  | b (v : Bool)
  | n (v : Int)
  | s (v : String)
  | arr (items : List JVal)
  | obj (fields : List (String × JVal))

/-- Single-quote character, used by the Python `repr` of strings. -/
def sq : String := String.singleton (Char.ofNat 39)

mutual

/-- Model of Python `repr`, used for container values inside `str`. -/
def pyRepr : JVal → String
  | .null => "None"
  | .b true => "True"
  | .b false => "False"
  | .n i => intToStr i
  | .s v => sq ++ v ++ sq
  | .arr items => "[" ++ pyReprItems items ++ "]"
  | .obj kvs => "\x7b" ++ pyReprFields kvs ++ "\x7d"
termination_by v => sizeOf v
decreasing_by
  all_goals simp

/-- Comma-separated `repr`s of list items. -/
def pyReprItems : List JVal → String
  | [] => ""
  | [x] => pyRepr x
  | x :: y :: t => pyRepr x ++ ", " ++ pyReprItems (y :: t)
termination_by l => sizeOf l
decreasing_by
  all_goals simp
  all_goals omega

/-- Comma-separated `repr`s of dict entries. -/
def pyReprFields : List (String × JVal) → String
  | [] => ""
  | [(k, v)] => sq ++ k ++ sq ++ ": " ++ pyRepr v
  | (k, v) :: e :: t => sq ++ k ++ sq ++ ": " ++ pyRepr v ++ ", " ++ pyReprFields (e :: t)
termination_by l => sizeOf l
decreasing_by
  all_goals simp
  all_goals omega

end

/-- Equality test on scalar values; containers are never stored in the
offset sets (adding one raises `TypeError` first), so the model only needs
scalar comparisons.  (Python's `True == 1` coercion is not modelled; no
tree in this development mixes boolean and numeric analysis offsets.) -/
def scalarEq : JVal → JVal → Bool
  | .null, .null => true
  | .b x, .b y => x = y
  | .n x, .n y => x = y
  | .s x, .s y => x = y
  | _, _ => false

/-- Equality of stored `(queryTermId, anaOffset)` pairs. -/
def pairEq (a b : String × JVal) : Bool :=
  a.1 = b.1 && scalarEq a.2 b.2

/-- Set insertion with an explicit equality test. -/
def setInsBy {α : Type} (eq : α → α → Bool) (x : α) (s : List α) : List α :=
  if s.any (eq x) then s else s ++ [x]

/-- Set union with an explicit equality test. -/
def setUnionBy {α : Type} (eq : α → α → Bool) (s t : List α) : List α :=
  t.foldl (fun acc x => setInsBy eq x acc) s

/-- Whether a list element equals the Python string `key`. -/
def isStrVal (key : String) : JVal → Bool
  | .s v => v = key
  | _ => false

/-- Whether `d['field'] == name` holds on a dict with fields `kvs`. -/
def fieldIs (kvs : List (String × JVal)) (name : String) : Bool :=
  match lookupA "field" kvs with
  | some (.s v) => v = name
  | _ => false

/-- Model of Python `str` on a `JVal`. -/
def pyStr : JVal → String
  | .s v => v
  | v => pyRepr v

/-- Whether a value may be put into a Python set (hash succeeds). -/
def hashable : JVal → Bool
  | .arr _ => false
  | .obj _ => false
  | _ => true

/-- Whether `type(v) in [dict, list]`. -/
def isContainer : JVal → Bool
  | .arr _ => true
  | .obj _ => true
  | _ => false

/-- Model of Python `key in v` for a string key: key lookup on dicts,
element test on lists, substring test on strings, `TypeError` otherwise. -/
def pyInE (key : String) : JVal → Except PyErr Bool
  | .obj kvs => .ok (lookupA key kvs).isSome
  | .arr items => .ok (items.any (isStrVal key))
  | .s v => .ok (containsSub key.toList v.toList)
  | _ => .error .typeError

/-- The extractor result: token id to set of `(queryTermId, anaOffset)`. -/
abbrev Offs := List (String × List (String × JVal))

/-- Merge `m` into `acc`: `if newK not in offsets: offsets[newK] = newV
else: offsets[newK] |= newV`. -/
def unionOffs (acc m : Offs) : Offs :=
  m.foldl (fun a kv =>
    match lookupA kv.1 a with
    | none => a ++ [kv]
    | some s => updateA kv.1 (setUnionBy pairEq s kv.2) a) acc

/-- Lookup success implies membership (used for termination). -/
theorem lookupA_mem {α β : Type} [DecidableEq α] {k : α} {v : β} :
    ∀ {l : List (α × β)}, lookupA k l = some v → (k, v) ∈ l := by
  intro l h
  induction l with
  | nil => simp [lookupA] at h
  | cons p t ih =>
    obtain ⟨a, b⟩ := p
    rw [lookupA] at h
    by_cases ha : a = k
    · subst ha
      simp at h
      subst h
      exact List.mem_cons_self _ _
    · simp [ha] at h
      exact List.mem_cons_of_mem _ (ih h)

/-- Analysis offset of a `words` leaf (`response_processors.py` lines
298–302): `-1` unless a `_nested` sub-object declares `field == 'ana'`,
in which case read its `offset` (raising `KeyError` when absent). -/
def anaOffsetOf (kvs : List (String × JVal)) : Except PyErr JVal :=
  match lookupA "_nested" kvs with
  | none => .ok (.n (-1))
  | some nv =>
    match pyInE "field" nv with
    | .error e => .error e
    | .ok false => .ok (.n (-1))
    | .ok true =>
      match nv with
      | .obj nkvs =>
        if fieldIs nkvs "ana" then
          match lookupA "offset" nkvs with
          | some a => .ok a
          | none => .error (.keyError "offset")
        else .ok (.n (-1))
      | _ => .error .typeError

mutual

/-- Embedding of `SentenceViewer.retrieve_highlighted_words` (lines
262–319): recursive walk of the `inner_hits` tree collecting, per matched
token id, the set of `(query term id, analysis offset)` pairs. -/
def retrieve_highlighted_words (sentence : JVal) (numSent : Nat)
    (queryWordID : String) : Except PyErr Offs :=
  match sentence with
  | .obj kvs =>
    match hin : lookupA "inner_hits" kvs with
    | some v => retrieve_highlighted_words v numSent queryWordID
    | none =>
      if fieldIs kvs "words" then
        match lookupA "offset" kvs with
        | some off =>
          let wordOffset := "w" ++ natToStr numSent ++ "_" ++ pyStr off
          let q := if queryWordID = "" then "w0" else queryWordID
          match anaOffsetOf kvs with
          | .error e => .error e
          | .ok anaOff =>
            if hashable anaOff then .ok [(wordOffset, [(q, anaOff)])]
            else .error .typeError
        | none => .ok []
      else retrieveItems kvs numSent queryWordID []
  | .arr items =>
    if items.any (isStrVal "inner_hits") then .error .typeError
    else retrieveArr items numSent queryWordID []
  | .s v =>
    if containsSub "inner_hits".toList v.toList then .error .typeError
    else .ok []
  | .null => .error .typeError
  | .b _ => .error .typeError
  | .n _ => .error .typeError
termination_by sizeOf sentence
decreasing_by
  · have := List.sizeOf_lt_of_mem (lookupA_mem hin)
    simp at this ⊢
    omega
  · simp
  · simp

/-- List branch of the extractor (lines 279–289). -/
def retrieveArr (items : List JVal) (numSent : Nat) (q : String)
    (acc : Offs) : Except PyErr Offs :=
  match items with
  | [] => .ok acc
  | el :: rest =>
    if isContainer el then
      match retrieve_highlighted_words el numSent q with
      | .error e => .error e
      | .ok m => retrieveArr rest numSent q (unionOffs acc m)
    else retrieveArr rest numSent q acc
termination_by sizeOf items
decreasing_by
  all_goals simp
  all_goals omega

/-- Key-scanning branch of the extractor (lines 305–318). -/
def retrieveItems (kvs : List (String × JVal)) (numSent : Nat) (q : String)
    (acc : Offs) : Except PyErr Offs :=
  match kvs with
  | [] => .ok acc
  | (k, v) :: rest =>
    if isTermKey k ∧ q ≠ "" ∧ q ≠ k then
      retrieveItems rest numSent q acc
    else
      let curQ := if isTermKey k ∧ q = "" then k else q
      if isContainer v then
        match retrieve_highlighted_words v numSent curQ with
        | .error e => .error e
        | .ok m => retrieveItems rest numSent q (unionOffs acc m)
      else retrieveItems rest numSent q acc
termination_by sizeOf kvs
decreasing_by
  all_goals simp
  all_goals omega

end

/-! ### Typed sentence data (the fixed Elasticsearch document schema) -/

/-- Value of one analysis field: a string or a list of strings. -/
inductive AnaVal where
  | s (v : String)
  | l (vs : List String)
deriving Repr, DecidableEq

/-- One analysis: a mapping from field name to value. -/
abbrev Ana := List (String × AnaVal)

/-- One token of a sentence (`_source['words'][i]`); every field a Python
dict key whose absence raises `KeyError` at its use sites. -/
structure Word where
  wtype : Option String
  off_start : Option Int
  off_end : Option Int
  wf : Option String
  ana : Option (List Ana)
deriving Repr, DecidableEq

/-- The `_source` record of a sentence hit. -/
structure SentSource where
  lang : Option Nat
  doc_id : Option Int
  text : Option String
  words : Option (List Word)
deriving Repr, DecidableEq

/-- The `highlight.text` value: ES returns a string or a list of strings. -/
inductive HLVal where
  | single (t : String)
  | many (ts : List String)
deriving Repr, DecidableEq

/-- One sentence hit from `response['hits']['hits']`.  `highlight` is
`none` when `'highlight' not in s or 'text' not in s['highlight']`;
`inner_hits` is the untyped tree passed to the extractor. -/
structure Hit where
  source : Option SentSource
  highlight : Option HLVal
  relations_satisfied : Option Bool
  inner_hits : Option JVal

/-! ### Popup builders -/

/-- Insert into a string-sorted list (Python `sorted` on dict keys). -/
def insSorted (x : String) : List String → List String
  | [] => [x]
  | y :: t => if x ≤ y then x :: y :: t else y :: insSorted x t

/-- Sort field names (Python `sorted(ana)`). -/
def sortStrings (l : List String) : List String := l.foldr insSorted []

/-- Render one analysis value (`', '.join(value)` for lists). -/
def anaValStr : AnaVal → String
  | .s v => v
  | .l vs => ", ".intercalate vs

/-- Embedding of `build_ana_div` (lines 24–40): lemma and part of speech
first, then the remaining fields sorted by name.  Concatenating a list
value directly (`lex`, `gr.pos`) raises `TypeError` as in Python. -/
def build_ana_div (ana : Ana) : Except PyErr String :=
  let lexPart : Except PyErr String :=
    match lookupA "lex" ana with
    | some (.s v) => .ok ("<span class=\"popup_lex\">" ++ v ++ "</span> ")
    | some (.l _) => .error .typeError
    | none => .ok ""
  match lexPart with
  | .error e => .error e
  | .ok r1 =>
    let posPart : Except PyErr String :=
      match lookupA "gr.pos" ana with
      | some (.s v) => .ok ("<span class=\"popup_pos\">" ++ v ++ "</span> ")
      | some (.l _) => .error .typeError
      | none => .ok ""
    match posPart with
    | .error e => .error e
    | .ok r2 =>
      let rest := (sortStrings (ana.map (·.1))).foldl (fun acc f =>
        if f = "lex" ∨ f = "gr.pos" then acc
        else
          match lookupA f ana with
          | some v =>
            acc ++ "<span class=\"popup_field\">" ++ f ++
              ": <span class=\"popup_value\">" ++ anaValStr v ++ "</span></span>"
          | none => acc) ""
      .ok (r1 ++ r2 ++ rest)

/-- Analysis blocks of `build_ana_popup` (lines 51–60); `matching` holds
the analysis offsets found by the search query. -/
def popupAnaBlocks (matching : List JVal) (total : Nat) :
    Nat → List Ana → Except PyErr String
  | _, [] => .ok ""
  | iAna, a :: rest =>
    match build_ana_div a with
    | .error e => .error e
    | .ok divs =>
      match popupAnaBlocks matching total (iAna + 1) rest with
      | .error e => .error e
      | .ok tl =>
        .ok ("<div class=\"popup_ana" ++
          (if matching.any (scalarEq (.n iAna)) then " popup_match" else "") ++
          "\">" ++
          (if total > 1 then natToStr (iAna + 1) ++ ". " else "") ++
          divs ++ "</div>" ++ tl)

/-- Embedding of `build_ana_popup` (lines 42–62). -/
def build_ana_popup (wf : Option String) (anas : Option (List Ana))
    (matching : List JVal) : Except PyErr String :=
  let p0 := "<div class=\"popup_word\">" ++
    (match wf with
     | some w => "<span class=\"popup_wf\">" ++ w ++ "</span>"
     | none => "")
  match anas with
  | none => .ok (p0 ++ "</div>")
  | some l =>
    match popupAnaBlocks matching l.length 0 l with
    | .error e => .error e
    | .ok body => .ok (p0 ++ body ++ "</div>")

/-- Accumulating loop of `prepare_analyses` (lines 69–82). -/
def prepAnaGo (words : List Word) (mwo : Offs) (acc : String) :
    List String → Except PyErr String
  | [] => .ok acc
  | iStr :: rest =>
    match parseWordNo iStr with
    | none => prepAnaGo words mwo acc rest
    | some i =>
      if h : i < words.length then
        let word := words.get ⟨i, h⟩
        match word.wtype with
        | none => .error (.keyError "wtype")
        | some wt =>
          if wt ≠ "word" then prepAnaGo words mwo acc rest
          else
            let matching :=
              match lookupA iStr mwo with
              | some pairs => pairs.map (·.2)
              | none => []
            match build_ana_popup word.wf word.ana matching with
            | .error e => .error e
            | .ok popup => prepAnaGo words mwo (acc ++ popup) rest
      else prepAnaGo words mwo acc rest

/-- Embedding of `prepare_analyses` (lines 64–84): popup concatenation
followed by one attribute escape (line 83). -/
def prepare_analyses (words : List Word) (indexes : List String)
    (mwo : Offs) : Except PyErr String :=
  match prepAnaGo words mwo "" indexes with
  | .error e => .error e
  | .ok r => .ok (escapeAttr r)

/-- Duplicate removal (`set(...)` of query term ids). -/
def dedupStr (l : List String) : List String :=
  l.foldl (fun a x => setIns x a) []

/-- Embedding of the `highlightClass` closure in `build_span`
(lines 89–94). -/
def highlightClass (mwo : Offs) (nWord : String) : String :=
  match lookupA nWord mwo with
  | some pairs =>
    " wmatch" ++
      String.join ((dedupStr (pairs.map (·.1))).map (fun nn => " wmatch_" ++ nn))
  | none => ""

/-- The `data-ana` attribute value built by `build_span` (line 87): the
output of `prepare_analyses` escaped a second time. -/
def build_span_dataAna (ws : List Word) (curWords : List String)
    (mwo : Offs) : Except PyErr String :=
  match prepare_analyses ws curWords mwo with
  | .error e => .error e
  | .ok pa => .ok (escapeAttr pa)

/-- Embedding of `build_span` (lines 86–99). -/
def build_span (src : SentSource) (curWords : List String) (mwo : Offs) :
    Except PyErr String :=
  match src.words with
  | none => .error (.keyError "words")
  | some ws =>
    match build_span_dataAna ws curWords mwo with
    | .error e => .error e
    | .ok dataAna =>
      .ok ("<span class=\"word " ++
        " ".intercalate (curWords.map (fun wn => wn ++ highlightClass mwo wn)) ++
        "\" data-ana=\"" ++ dataAna ++ "\">")

/-! ### Highlighter offset normalization -/

/-- Boundary-event maps: character offset to set of span ids. -/
abbrev OffMap := List (Int × List String)

/-- Whether the character after a `<` begins `em>` (so the five-character
window shows `<em>`, the open marker). -/
def isOpenMarkerTail : List Char → Bool
  | 'e' :: 'm' :: '>' :: _ => true
  | _ => false

/-- Whether the character after a `<` begins `/em>` (so the window shows
`</em>`, the close marker; checked only after the open-marker test, like
the `elif`). -/
def isCloseMarkerTail : List Char → Bool
  | '/' :: 'e' :: 'm' :: '>' :: _ => true
  | _ => false

/-- Scanning loop of `add_highlighted_offsets` (lines 106–121): `i` is the
raw index of the head of the remaining text, `subtr` the number of marker
characters consumed so far; the loop body runs only while at least five
characters remain (`for i in range(len(text) - 4)`). -/
def addHLGo (offStarts offEnds : OffMap) (i subtr : Nat) :
    List Char → OffMap × OffMap
  | [] => (offStarts, offEnds)
  | c :: t =>
    if (c :: t).length ≤ 4 then (offStarts, offEnds)
    else if c = '<' then
      if isOpenMarkerTail t then
        addHLGo (mapAdd offStarts ((i : Int) - subtr) "smatch") offEnds
          (i + 1) (subtr + 4) t
      else if isCloseMarkerTail t then
        addHLGo offStarts (mapAdd offEnds ((i : Int) - subtr) "smatch")
          (i + 1) (subtr + 5) t
      else addHLGo offStarts offEnds (i + 1) subtr t
    else addHLGo offStarts offEnds (i + 1) subtr t

/-- Embedding of `add_highlighted_offsets` (lines 101–121). -/
def add_highlighted_offsets (offStarts offEnds : OffMap)
    (text : List Char) : OffMap × OffMap :=
  addHLGo offStarts offEnds 0 0 text

/-! ### Document header (`process_sentence_header`, lines 123–164) -/

/-- Corpus settings and the search-client collaborator. -/
structure Viewer where
  languages : List String
  viewable_meta : List String
  get_doc_by_id : Int → JVal

/-- Python subscript `v[key]` for a string key. -/
def subscriptS (v : JVal) (key : String) : Except PyErr JVal :=
  match v with
  | .obj kvs =>
    match lookupA key kvs with
    | some x => .ok x
    | none => .error (.keyError key)
  | _ => .error .typeError

/-- Python `len(v)`. -/
def pyLen : JVal → Except PyErr Int
  | .s v => .ok v.length
  | .arr l => .ok l.length
  | .obj kvs => .ok kvs.length
  | _ => .error .typeError

/-- Python `v[0]` on a list. -/
def firstItem : JVal → Except PyErr JVal
  | .arr (x :: _) => .ok x
  | _ => .error .typeError

/-- Require a Python string (string concatenation raises otherwise). -/
def asStrE : JVal → Except PyErr String
  | .s v => .ok v
  | _ => .error .typeError

/-- Replace every occurrence of `pat` (Python `str.replace`). -/
def replaceSubAll (pat repl : List Char) : List Char → List Char
  | [] => []
  | c :: t =>
    if h : pat.isPrefixOf (c :: t) ∧ ¬pat.isEmpty then
      repl ++ replaceSubAll pat repl ((c :: t).drop pat.length)
    else c :: replaceSubAll pat repl t
termination_by l => l.length
decreasing_by
  · obtain ⟨h1, h2⟩ := h
    simp only [List.length_drop]
    have : 0 < pat.length := by
      cases pat with
      | nil => simp at h2
      | cons a b => simp
    simp only [List.length_cons]
    omega
  · simp only [List.length_cons]
    omega

/-- Metadata fields listed in `viewable_meta` rendered for the tooltip
(lines 154–160); a missing key is skipped (`except KeyError: pass`),
concatenating a non-string raises `TypeError`. -/
def dataMetaGo (meta : List (String × JVal)) (acc : String) :
    List String → Except PyErr String
  | [] => .ok acc
  | f :: rest =>
    match lookupA f meta with
    | none => dataMetaGo meta acc rest
    | some (.s v) => dataMetaGo meta (acc ++ f ++ ": " ++ v ++ "\\n") rest
    | some _ => .error .typeError

/-- Title, author, date and tooltip parts of the header (lines 141–164).
Comparing `year2 != year1` uses scalar equality (years are scalars). -/
def processHeaderFields (vw : Viewer) (result0 : String)
    (meta : List (String × JVal)) : Except PyErr String :=
  let titlePart : Except PyErr String :=
    match lookupA "title" meta with
    | some v =>
      match asStrE v with
      | .error e => .error e
      | .ok t => .ok ("<span class=\"ch_title\">" ++ t ++ "</span>")
    | none => .ok "<span class=\"ch_title\">-</span>"
  match titlePart with
  | .error e => .error e
  | .ok tp =>
    let authorPart : Except PyErr String :=
      match lookupA "author" meta with
      | some v =>
        match asStrE v with
        | .error e => .error e
        | .ok a => .ok ("<span class=\"ch_author\">" ++ a ++ "</span>")
      | none => .ok ""
    match authorPart with
    | .error e => .error e
    | .ok ap =>
      let issuePart : Except PyErr String :=
        match lookupA "issue" meta with
        | some v =>
          match pyLen v with
          | .error e => .error e
          | .ok l =>
            if l > 0 then
              match asStrE v with
              | .error e => .error e
              | .ok iv => .ok ("<span class=\"ch_date\">" ++ iv ++ "</span>")
            else .ok ""
        | none => .ok ""
      match issuePart with
      | .error e => .error e
      | .ok ip =>
        let yearPart : String :=
          match lookupA "year1" meta, lookupA "year2" meta with
          | some y1, some y2 =>
            let d := pyStr y1
            let d2 := if scalarEq y2 y1 then d else d ++ "&ndash;" ++ pyStr y2
            "<span class=\"ch_date\">" ++ d2 ++ "</span>"
          | _, _ => ""
        match dataMetaGo meta "" vw.viewable_meta with
        | .error e => .error e
        | .ok dm0 =>
          let dm := String.mk (replaceChar '"' ("&quot;".toList) dm0.toList)
          let result1 := result0 ++ tp ++ ap ++ ip ++ yearPart
          let result2 :=
            if dm.length > 0 then
              String.mk (replaceSubAll "data-meta=\"\"".toList
                ("data-meta=\"".toList ++ dm.toList ++ ['"']) result1.toList)
            else result1
          .ok (result2 ++ "</span>")

/-- Embedding of `process_sentence_header` (lines 123–164). -/
def process_sentence_header (vw : Viewer) (src : SentSource) :
    Except PyErr String :=
  let result0 := "<span class=\"context_header\" data-meta=\"\">"
  match src.doc_id with
  | none => .error (.keyError "doc_id")
  | some docID =>
    match vw.get_doc_by_id docID with
    | .null => .ok (result0 ++ "</span>")
    | meta0 =>
      match pyInE "hits" meta0 with
      | .error e => .error e
      | .ok false => .ok (result0 ++ "</span>")
      | .ok true =>
        match subscriptS meta0 "hits" with
        | .error e => .error e
        | .ok hits1 =>
          match pyInE "hits" hits1 with
          | .error e => .error e
          | .ok false => .ok (result0 ++ "</span>")
          | .ok true =>
            match subscriptS hits1 "hits" with
            | .error e => .error e
            | .ok hits2 =>
              match pyLen hits2 with
              | .error e => .error e
              | .ok len =>
                if len ≤ 0 then .ok (result0 ++ "</span>")
                else
                  match firstItem hits2 with
                  | .error e => .error e
                  | .ok meta1 =>
                    match pyInE "_source" meta1 with
                    | .error e => .error e
                    | .ok false => .ok (result0 ++ "</span>")
                    | .ok true =>
                      match subscriptS meta1 "_source" with
                      | .error e => .error e
                      | .ok metaV =>
                        match metaV with
                        | .obj meta => processHeaderFields vw result0 meta
                        | _ => .error .typeError

/-! ### The sweep (`process_sentence`, lines 166–242) -/

/-- One unit of the rendered sentence: an original character, a newline
substitution, or inserted wrapper markup. -/
inductive Piece where
  | raw (c : Char)
  | nl (s : String)
  | openTag (s : String)
  | closeTag
deriving Repr, DecidableEq

/-- Markup substituted for a leading/trailing newline (line 219). -/
def newlineSpanStr : String := "<span class=\"newline\"></span>"

/-- The rendered `text` string is the flattening of the piece list. -/
def flattenPieces : List Piece → String
  | [] => ""
  | .raw c :: t => String.singleton c ++ flattenPieces t
  | .nl s :: t => s ++ flattenPieces t
  | .openTag s :: t => s ++ flattenPieces t
  | .closeTag :: t => "</span>" ++ flattenPieces t

/-- Strip the markup added by the sweep: drop wrapper tags and undo the
newline substitutions. -/
def stripPieces : List Piece → List Char
  | [] => []
  | .raw c :: t => c :: stripPieces t
  | .nl _ :: t => '\n' :: stripPieces t
  | .openTag _ :: t => stripPieces t
  | .closeTag :: t => stripPieces t

/-- Token boundary registration (lines 197–212): every word with
`wtype == 'word'` and both offsets contributes one open and one close
event under its id `w<numSent>_<iWord>`. -/
def addWordOffsets (numSent : Nat) :
    Nat → List Word → OffMap × OffMap → OffMap × OffMap
  | _, [], maps => maps
  | iWord, w :: rest, (starts, ends) =>
    match w.wtype with
    | none => addWordOffsets numSent (iWord + 1) rest (starts, ends)
    | some wt =>
      if wt ≠ "word" then addWordOffsets numSent (iWord + 1) rest (starts, ends)
      else
        match w.off_start, w.off_end with
        | some a, some bnd =>
          let wn := "w" ++ natToStr numSent ++ "_" ++ natToStr iWord
          addWordOffsets numSent (iWord + 1) rest
            (mapAdd starts a wn, mapAdd ends bnd wn)
        | _, _ => addWordOffsets numSent (iWord + 1) rest (starts, ends)

/-- The open-word set after the boundary events at offset `i` (lines
225–232): if a wrapper is open, ids closing here are removed, then ids
opening here are added. -/
def sweepNewCur (offStarts offEnds : OffMap) (i : Nat)
    (curWords : List String) : List String :=
  let cw1 :=
    if !curWords.isEmpty then
      match lookupA (i : Int) offEnds with
      | some es => setDiff curWords es
      | none => curWords
    else curWords
  match lookupA (i : Int) offStarts with
  | some ss => setUnion cw1 ss
  | none => cw1

/-- The content piece the sweep produces for one character (lines
214–221): a newline substitution for a newline, the character itself
otherwise. -/
def sweepContent (n i : Nat) (c : Char) (rest : List Char) : Piece :=
  if c = '\n' then
    if i = 0 ∨ i = n - 1 ∨ rest.all (fun x => x = '\n') then .nl newlineSpanStr
    else .nl "<br>"
  else .raw c

/-- The sweep loop (lines 213–237): walks the characters left to right
keeping the set of currently open word ids; at each boundary offset one
close tag is emitted if a wrapper is open, closing ids are removed, new
ids added, and a new wrapper is opened when the set is non-empty. -/
def sweepGo (src : SentSource) (mwo : Offs) (offStarts offEnds : OffMap)
    (n : Nat) : Nat → List Char → List String → Except PyErr (List Piece)
  | _, [], curWords => .ok (if curWords.isEmpty then [] else [.closeTag])
  | i, c :: rest, curWords =>
    if (lookupA (i : Int) offStarts).isNone ∧ (lookupA (i : Int) offEnds).isNone then
      match sweepGo src mwo offStarts offEnds n (i + 1) rest curWords with
      | .error e => .error e
      | .ok tl => .ok (sweepContent n i c rest :: tl)
    else
      let hasClose := !curWords.isEmpty
      let cw2 := sweepNewCur offStarts offEnds i curWords
      let newWord := (lookupA (i : Int) offStarts).isSome
      if !cw2.isEmpty && (hasClose || newWord) then
        match build_span src cw2 mwo with
        | .error e => .error e
        | .ok sp =>
          match sweepGo src mwo offStarts offEnds n (i + 1) rest cw2 with
          | .error e => .error e
          | .ok tl =>
            .ok ((if hasClose then [Piece.closeTag] else []) ++
              Piece.openTag sp :: sweepContent n i c rest :: tl)
      else
        match sweepGo src mwo offStarts offEnds n (i + 1) rest cw2 with
        | .error e => .error e
        | .ok tl =>
          .ok ((if hasClose then [Piece.closeTag] else []) ++
            sweepContent n i c rest :: tl)

/-- Header value: the initial `{}` or the HTML string. -/
inductive HVal where
  | emptyObj
  | hstr (s : String)
deriving Repr, DecidableEq

/-- The per-sentence result record.  `header`/`relations_satisfied` are
`none` exactly when the corresponding key is absent from the returned
dict; `pieces` is the instrumented `languages[lang]['text']` value. -/
structure SentResult where
  header : Option HVal
  pieces : List Piece
  relations_satisfied : Option Bool
  lang : String
deriving Repr, DecidableEq

/-- The highlighter-marked text chosen by lines 183–191: the `highlight`
text when present (first element when a list, falling back to the source
text for an empty list), else the source text. -/
def hlTextOf (h : Option HLVal) (txt : String) : String :=
  match h with
  | some (.single t) => t
  | some (.many (t :: _)) => t
  | some (.many []) => txt
  | none => txt

/-- Embedding of `process_sentence` (lines 166–242). -/
def process_sentence (vw : Viewer) (s : Hit) (numSent : Nat)
    (getHeader : Bool) (lang : String) : Except PyErr SentResult :=
  match s.source with
  | none => .ok ⟨none, [], none, lang⟩
  | some src =>
    match (match s.inner_hits with
           | some t => retrieve_highlighted_words t numSent ""
           | none => .ok []) with
    | .error e => .error e
    | .ok mwo =>
      match src.text with
      | none => .ok ⟨none, [], none, lang⟩
      | some txt =>
        if txt.length ≤ 0 then .ok ⟨none, [], none, lang⟩
        else
          match (if getHeader then
                   match process_sentence_header vw src with
                   | .error e => .error e
                   | .ok h => .ok (some (HVal.hstr h))
                 else .ok (some HVal.emptyObj) : Except PyErr (Option HVal)) with
          | .error e => .error e
          | .ok header =>
            let highlightedText := hlTextOf s.highlight txt
            match src.words with
            | none => .ok ⟨none, highlightedText.toList.map Piece.raw, none, lang⟩
            | some ws =>
              let chars := txt.toList
              let maps0 := add_highlighted_offsets [] [] highlightedText.toList
              let maps := addWordOffsets numSent 0 ws maps0
              match sweepGo src mwo maps.1 maps.2 chars.length 0 chars [] with
              | .error e => .error e
              | .ok pieces =>
                let rel := if s.relations_satisfied = some false then false else true
                .ok ⟨header, pieces, some rel, lang⟩

/-! ### Word hits and the batch entry points (lines 244–354) -/

/-- The `_source` of a word hit; numeric display fields stay untyped
because they are only passed through `str`. -/
structure WordSource where
  wf : Option String
  ana : Option (List Ana)
  freq : Option JVal
  rank : Option JVal
  n_sents : Option JVal
  n_docs : Option JVal

/-- One word hit from `response['hits']['hits']`. -/
structure WordHit where
  source : Option WordSource

/-- Embedding of `process_word` (lines 244–260). -/
def process_word (w : WordHit) : Except PyErr String :=
  match w.source with
  | none => .ok ""
  | some ws =>
    match build_ana_popup ws.wf ws.ana [] with
    | .error e => .error e
    | .ok popup =>
      match ws.wf, ws.freq, ws.rank, ws.n_sents, ws.n_docs with
      | some wf, some freq, some rank, some nsents, some ndocs =>
        .ok ("<tr><td><span class=\"word\" data-ana=\"" ++ escapeAttr popup ++
          "\">" ++ wf ++ "</span></td><td>" ++ pyStr freq ++
          "</span></td><td>" ++ pyStr rank ++ "</td><td>" ++ pyStr nsents ++
          "</td><td>" ++ pyStr ndocs ++
          "</td><td><span class=\"search_w\" data-wf=\"" ++ wf ++
          "\">&gt;&gt; GO!</td></tr>")
      | _, _, _, _, _ => .error (.keyError "word field")

/-- The `hits` block of a sentence-search response; `total` is `none`
when the `'total'` key is absent. -/
structure SentHits where
  total : Option Int
  hits : List Hit

/-- A sentence-search response; `agg_ndocs` models
`response['aggregations']['agg_ndocs']['value']` when present. -/
structure SentResponse where
  hits : Option SentHits
  agg_ndocs : Option Int

/-- The batch result of `process_sent_json`. -/
structure SentBatch where
  n_occurrences : Int
  n_sentences : Int
  n_docs : Int
  page : Int
  message : String
  contexts : Option (List SentResult)
deriving Repr, DecidableEq

/-- The context loop of `process_sent_json` (lines 332–339). -/
def sentContextsGo (vw : Viewer) : Nat → List Hit → Except PyErr (List SentResult)
  | _, [] => .ok []
  | iHit, h :: rest =>
    match h.source with
    | none => .error (.keyError "_source")
    | some src =>
      match src.lang with
      | none => .error (.keyError "lang")
      | some li =>
        match vw.languages[li]? with
        | none => .error (.keyError "languages")
        | some lname =>
          match process_sentence vw h iHit true lname with
          | .error e => .error e
          | .ok r =>
            match sentContextsGo vw (iHit + 1) rest with
            | .error e => .error e
            | .ok t => .ok (r :: t)

/-- Embedding of `process_sent_json` (lines 321–340). -/
def process_sent_json (vw : Viewer) (resp : SentResponse) :
    Except PyErr SentBatch :=
  match resp.hits with
  | none => .ok ⟨0, 0, 0, 1, "Nothing found.", none⟩
  | some hb =>
    match hb.total with
    | none => .ok ⟨0, 0, 0, 1, "Nothing found.", none⟩
    | some total =>
      let ndocs := match resp.agg_ndocs with | some v => v | none => 0
      match sentContextsGo vw 0 hb.hits with
      | .error e => .error e
      | .ok ctxs => .ok ⟨0, total, ndocs, 1, "", some ctxs⟩

/-- The `hits` block of a word-search response. -/
structure WordHits where
  total : Option Int
  hits : List WordHit

/-- A word-search response. -/
structure WordResponse where
  hits : Option WordHits
  agg_ndocs : Option Int

/-- The batch result of `process_word_json`. -/
structure WordBatch where
  n_occurrences : Int
  n_sentences : Int
  n_docs : Int
  message : String
  words : Option (List String)
deriving Repr, DecidableEq

/-- The word loop of `process_word_json` (lines 352–353). -/
def wordsGo : List WordHit → Except PyErr (List String)
  | [] => .ok []
  | h :: t =>
    match process_word h with
    | .error e => .error e
    | .ok wstr =>
      match wordsGo t with
      | .error e => .error e
      | .ok tl => .ok (wstr :: tl)

/-- Embedding of `process_word_json` (lines 342–354).  Note that the
`aggregations` access (line 350) is unguarded. -/
def process_word_json (resp : WordResponse) : Except PyErr WordBatch :=
  match resp.hits with
  | none => .ok ⟨0, 0, 0, "Nothing found.", none⟩
  | some hb =>
    match hb.total with
    | none => .ok ⟨0, 0, 0, "Nothing found.", none⟩
    | some total =>
      if total ≤ 0 then .ok ⟨0, 0, 0, "Nothing found.", none⟩
      else
        match resp.agg_ndocs with
        | none => .error (.keyError "aggregations")
        | some nd =>
          match wordsGo hb.hits with
          | .error e => .error e
          | .ok wlist => .ok ⟨total, 0, nd, "", some wlist⟩

/-! ## Lemmas about the highlighter scan -/

/-- The loop body never runs once fewer than five characters remain
(`for i in range(len(text) - 4)`). -/
theorem addHLGo_stop (s e : OffMap) (i subtr : Nat) (rest : List Char)
    (h : rest.length ≤ 4) : addHLGo s e i subtr rest = (s, e) := by
  cases rest with
  | nil => rfl
  | cons c t =>
    rw [addHLGo, if_pos h]

/-- Scanning past characters that are not `<` records nothing and only
advances the raw index. -/
theorem addHLGo_skip (u : List Char) (hu : '<' ∉ u) (s e : OffMap)
    (i subtr : Nat) (rest : List Char) :
    addHLGo s e i subtr (u ++ rest) = addHLGo s e (i + u.length) subtr rest := by
  induction u generalizing i with
  | nil => simp
  | cons c u' ih =>
    have hc : c ≠ '<' := fun hh => hu (hh ▸ List.mem_cons_self _ _)
    have hu' : '<' ∉ u' := fun hh => hu (List.mem_cons_of_mem _ hh)
    by_cases hlen : (c :: (u' ++ rest)).length ≤ 4
    · rw [List.cons_append, addHLGo, if_pos hlen]
      refine (addHLGo_stop _ _ _ _ _ ?_).symm
      simp only [List.length_cons, List.length_append] at hlen ⊢
      omega
    · rw [List.cons_append, addHLGo, if_neg hlen, if_neg hc, ih hu']
      simp only [List.length_cons]
      congr 1
      omega

/-- A scan over text with no `<` at all records nothing. -/
theorem addHLGo_noLt (rest : List Char) (h : '<' ∉ rest) (s e : OffMap)
    (i subtr : Nat) : addHLGo s e i subtr rest = (s, e) := by
  have h2 := addHLGo_skip rest h s e i subtr []
  simpa using h2

/-- Processing an open marker (with at least one more character after it)
records a start event at `i - subtr` and consumes four marker characters. -/
theorem addHLGo_open (s e : OffMap) (i subtr : Nat) (rest : List Char)
    (h : rest ≠ []) :
    addHLGo s e i subtr ('<' :: 'e' :: 'm' :: '>' :: rest) =
      addHLGo (mapAdd s ((i : Int) - subtr) "smatch") e (i + 1) (subtr + 4)
        ('e' :: 'm' :: '>' :: rest) := by
  have hlen : ¬ (('<' :: 'e' :: 'm' :: '>' :: rest).length ≤ 4) := by
    cases rest with
    | nil => exact absurd rfl h
    | cons a t => simp
  rw [addHLGo, if_neg hlen]
  rfl

/-- Processing a close marker records an end event at `i - subtr` and
consumes five marker characters. -/
theorem addHLGo_close (s e : OffMap) (i subtr : Nat) (rest : List Char) :
    addHLGo s e i subtr ('<' :: '/' :: 'e' :: 'm' :: '>' :: rest) =
      addHLGo s (mapAdd e ((i : Int) - subtr) "smatch") (i + 1) (subtr + 5)
        ('/' :: 'e' :: 'm' :: '>' :: rest) := by
  have hlen : ¬ (('<' :: '/' :: 'e' :: 'm' :: '>' :: rest).length ≤ 4) := by
    simp
  rw [addHLGo, if_neg hlen]
  rfl

/-- C10: `add_highlighted_offsets` scans only indices `0` through
`len(text) - 5`; a text shorter than five characters produces no boundary
events at all, and an `<em>` marker occupying the last four characters is
never recorded. -/
theorem claim_C10 :
    (∀ (s e : OffMap) (text : List Char), text.length < 5 →
      add_highlighted_offsets s e text = (s, e)) ∧
    (∀ u : List Char, '<' ∉ u →
      add_highlighted_offsets [] [] (u ++ "<em>".toList) = ([], [])) := by
  constructor
  · intro s e text h
    exact addHLGo_stop s e 0 0 text (by omega)
  · intro u hu
    unfold add_highlighted_offsets
    rw [addHLGo_skip u hu]
    exact addHLGo_stop _ _ _ _ _ (by decide)

/-- Witness for C10 at the texts `"abcd"` and `"ab" ++ "<em>"`. -/
theorem claim_C10_witness :
    (("abcd".toList : List Char).length < 5 ∧
      add_highlighted_offsets [] [] "abcd".toList = ([], [])) ∧
    ('<' ∉ ("ab".toList : List Char) ∧
      add_highlighted_offsets [] [] ("ab".toList ++ "<em>".toList) = ([], [])) :=
  ⟨⟨by decide, claim_C10.1 [] [] "abcd".toList (by decide)⟩,
   ⟨by decide, claim_C10.2 "ab".toList (by decide)⟩⟩

/-- C7 (amended): a marker found by the scan is recorded at its raw index
minus the marker characters consumed so far — for marker-free `u`, `v`,
`w` the open marker of `u<em>v</em>w` is recorded at `|u|` and the close
marker at `|u| + |v|` — and on `"A <em>cat</em> ran"` the recorded offsets
are an open at 2 and a close at 5.  (The unrestricted claim fails for open
markers inside the last four characters, see the counterexample.) -/
theorem claim_C7 :
    (add_highlighted_offsets [] [] "A <em>cat</em> ran".toList =
      ([((2 : Int), ["smatch"])], [((5 : Int), ["smatch"])])) ∧
    (∀ (u v w : List Char) (s e : OffMap), '<' ∉ u → '<' ∉ v → '<' ∉ w →
      add_highlighted_offsets s e
        (u ++ "<em>".toList ++ (v ++ ("</em>".toList ++ w))) =
      (mapAdd s ((u.length : Int)) "smatch",
       mapAdd e ((u.length : Int) + (v.length : Int)) "smatch")) := by
  constructor
  · decide
  · intro u v w s e hu hv hw
    have hemv : '<' ∉ ('e' :: 'm' :: '>' :: v) := by
      simp only [List.mem_cons, not_or]
      exact ⟨by decide, by decide, by decide, hv⟩
    have hslash : '<' ∉ ('/' :: 'e' :: 'm' :: '>' :: w) := by
      simp only [List.mem_cons, not_or]
      exact ⟨by decide, by decide, by decide, by decide, hw⟩
    unfold add_highlighted_offsets
    rw [show u ++ "<em>".toList ++ (v ++ ("</em>".toList ++ w)) =
        u ++ ('<' :: 'e' :: 'm' :: '>' ::
          (v ++ ('<' :: '/' :: 'e' :: 'm' :: '>' :: w))) from by
      rw [List.append_assoc, show "<em>".toList = ['<', 'e', 'm', '>'] from rfl,
        show "</em>".toList = ['<', '/', 'e', 'm', '>'] from rfl]
      simp]
    rw [addHLGo_skip u hu]
    rw [addHLGo_open _ _ _ _ _ (by simp)]
    rw [show ('e' :: 'm' :: '>' :: (v ++ ('<' :: '/' :: 'e' :: 'm' :: '>' :: w))) =
        (('e' :: 'm' :: '>' :: v) ++ ('<' :: '/' :: 'e' :: 'm' :: '>' :: w)) from by
      simp]
    rw [addHLGo_skip ('e' :: 'm' :: '>' :: v) hemv]
    rw [addHLGo_close]
    rw [addHLGo_noLt _ hslash]
    simp only [Prod.mk.injEq]
    constructor
    · congr 1
      omega
    · congr 1
      simp only [List.length_cons]
      omega

/-- Counterexample to C7 as stated: in `"ab<em>"` the open marker starts
at raw index 2 with no marker characters consumed, yet no `smatch` open
event is recorded at offset 2 (or anywhere else). -/
theorem claim_C7_counterexample :
    add_highlighted_offsets [] [] "ab<em>".toList = ([], []) ∧
    lookupA (2 : Int) (add_highlighted_offsets [] [] "ab<em>".toList).1 = none := by
  constructor <;> decide

/-- Witness for C7 on the spec scenario split as `"A " ++ "<em>" ++ "cat"
++ "</em>" ++ " ran"`. -/
theorem claim_C7_witness :
    ('<' ∉ ("A ".toList : List Char)) ∧
    add_highlighted_offsets [] []
        ("A ".toList ++ "<em>".toList ++ ("cat".toList ++ ("</em>".toList ++ " ran".toList))) =
      (mapAdd [] ((("A ".toList : List Char).length : Int)) "smatch",
       mapAdd [] ((("A ".toList : List Char).length : Int) +
         (("cat".toList : List Char).length : Int)) "smatch") :=
  ⟨by decide, claim_C7.2 "A ".toList "cat".toList " ran".toList [] []
    (by decide) (by decide) (by decide)⟩

/-! ## Lemmas about the attribute escape -/

/-- Replacing a character that does not occur is the identity. -/
theorem replaceChar_of_not_mem (a : Char) (rep : List Char)
    (l : List Char) (h : a ∉ l) : replaceChar a rep l = l := by
  induction l with
  | nil => rfl
  | cons c t ih =>
    have hc : c ≠ a := fun hh => h (hh ▸ List.mem_cons_self _ _)
    have ht : a ∉ t := fun hh => h (List.mem_cons_of_mem _ hh)
    rw [replaceChar, if_neg hc, ih ht]
    rfl

/-- Characters of a replacement output come from the replacement string
or from the input. -/
theorem mem_replaceChar {c a : Char} {rep l : List Char}
    (h : c ∈ replaceChar a rep l) : c ∈ rep ∨ c ∈ l := by
  induction l with
  | nil => exact absurd h (by simp [replaceChar])
  | cons d t ih =>
    rw [replaceChar] at h
    rcases List.mem_append.mp h with h1 | h1
    · by_cases hd : d = a
      · rw [if_pos hd] at h1
        exact Or.inl h1
      · rw [if_neg hd] at h1
        simp at h1
        exact Or.inr (h1 ▸ List.mem_cons_self _ _)
    · rcases ih h1 with h2 | h2
      · exact Or.inl h2
      · exact Or.inr (List.mem_cons_of_mem _ h2)

/-- After replacing `a` by a string not containing `a`, the character `a`
no longer occurs. -/
theorem not_mem_replaceChar_self (a : Char) (rep : List Char)
    (ha : a ∉ rep) (l : List Char) : a ∉ replaceChar a rep l := by
  induction l with
  | nil => simp [replaceChar]
  | cons c t ih =>
    rw [replaceChar]
    intro h
    rcases List.mem_append.mp h with h1 | h1
    · by_cases hc : c = a
      · rw [if_pos hc] at h1
        exact ha h1
      · rw [if_neg hc] at h1
        simp at h1
        exact hc (h1.symm)
    · exact ih h1

/-- No double quote survives the escape. -/
theorem quot_not_mem_escChars (l : List Char) : '"' ∉ escChars l := by
  unfold escChars
  intro h
  rcases mem_replaceChar h with h1 | h1
  · exact absurd h1 (by decide)
  rcases mem_replaceChar h1 with h2 | h2
  · exact absurd h2 (by decide)
  exact not_mem_replaceChar_self '"' ("&quot;".toList) (by decide) l h2

/-- No less-than sign survives the escape. -/
theorem lt_not_mem_escChars (l : List Char) : '<' ∉ escChars l := by
  unfold escChars
  intro h
  rcases mem_replaceChar h with h1 | h1
  · exact absurd h1 (by decide)
  exact not_mem_replaceChar_self '<' ("&lt;".toList) (by decide) _ h1

/-- No greater-than sign survives the escape. -/
theorem gt_not_mem_escChars (l : List Char) : '>' ∉ escChars l :=
  not_mem_replaceChar_self '>' ("&gt;".toList) (by decide) _

/-- The escape is idempotent: it touches only `"`, `<`, `>`, none of
which occur in escaped output (in particular `&` is never rewritten). -/
theorem escChars_idem (l : List Char) : escChars (escChars l) = escChars l := by
  conv_lhs => rw [escChars]
  rw [replaceChar_of_not_mem _ _ _ (quot_not_mem_escChars l),
    replaceChar_of_not_mem _ _ _ (lt_not_mem_escChars l),
    replaceChar_of_not_mem _ _ _ (gt_not_mem_escChars l)]

/-- String-level idempotence of the attribute escape. -/
theorem escapeAttr_idem (s : String) : escapeAttr (escapeAttr s) = escapeAttr s := by
  unfold escapeAttr
  congr 1
  exact escChars_idem s.toList

/-- C2 (amended): the popup payload is escaped at two boundaries — once
inside `prepare_analyses` and once more in `build_span` — but the escape
map never rewrites `&`, so it is idempotent and the `data-ana` payload
equals the once-escaped popup string; double-escaped entities can only
appear when an input field value already contains them, see the
counterexample. -/
theorem claim_C2 (ws : List Word) (cw : List String) (mwo : Offs)
    (p : String) (h : prepare_analyses ws cw mwo = .ok p) :
    build_span_dataAna ws cw mwo = .ok p := by
  unfold prepare_analyses at h
  cases hgo : prepAnaGo ws mwo "" cw with
  | error e =>
    rw [hgo] at h
    exact absurd h (by simp)
  | ok r =>
    rw [hgo] at h
    simp only [Except.ok.injEq] at h
    unfold build_span_dataAna prepare_analyses
    rw [hgo]
    show Except.ok (escapeAttr (escapeAttr r)) = Except.ok p
    rw [escapeAttr_idem, h]

/-- Counterexample to C2 as stated: a word whose `wf` field already
contains `&amp;quot;` makes the payload placed into the attribute contain
the double-escaped entity `&amp;quot;`. -/
theorem claim_C2_counterexample :
    containsSub "&amp;quot;".toList
      (((build_span_dataAna [⟨some "word", none, none, some "&amp;quot;", none⟩]
        ["w1_0"] []).toOption.getD "").toList) = true := by
  decide

/-- Witness for C2 at the empty word list. -/
theorem claim_C2_witness :
    prepare_analyses [] [] [] = .ok "" ∧ build_span_dataAna [] [] [] = .ok "" :=
  ⟨rfl, claim_C2 [] [] [] "" rfl⟩

/-! ## The words-leaf of the extractor (C6, C4 counterexample) -/

/-- C6 (amended): for a mapping node with `field == 'words'` and an
`offset` field **and no `inner_hits` key** (an `inner_hits` key takes
precedence and redirects traversal, see the counterexample), the extractor
returns the singleton map recording, under `w<numSent>_<offset>`, the pair
`(queryTermId, analysisIndex)`; the term id defaults to the sentinel `w0`
when no scope is active, and the analysis index is read by `anaOffsetOf`,
which yields `-1` when there is no `_nested` sub-object and the nested
`offset` when a `_nested` sub-object declares `field == 'ana'`. -/
theorem claim_C6 :
    (∀ (kvs : List (String × JVal)) (numSent : Nat) (q : String)
      (off anaOff : JVal),
      lookupA "inner_hits" kvs = none →
      fieldIs kvs "words" = true →
      lookupA "offset" kvs = some off →
      anaOffsetOf kvs = .ok anaOff →
      hashable anaOff = true →
      retrieve_highlighted_words (.obj kvs) numSent q =
        .ok [("w" ++ natToStr numSent ++ "_" ++ pyStr off,
          [(if q = "" then "w0" else q, anaOff)])]) ∧
    (∀ kvs2 : List (String × JVal), lookupA "_nested" kvs2 = none →
      anaOffsetOf kvs2 = .ok (.n (-1))) ∧
    (∀ (kvs2 nk : List (String × JVal)) (a : JVal),
      lookupA "_nested" kvs2 = some (.obj nk) →
      fieldIs nk "ana" = true →
      lookupA "offset" nk = some a →
      anaOffsetOf kvs2 = .ok a) := by
  refine ⟨?_, ?_, ?_⟩
  · intro kvs numSent q off anaOff h1 h2 h3 h4 h5
    rw [retrieve_highlighted_words]
    split
    · rename_i v heq
      rw [h1] at heq
      exact absurd heq (by simp)
    · simp only [h2, h3, h4, h5, if_true]
  · intro kvs2 h
    unfold anaOffsetOf
    rw [h]
  · intro kvs2 nk a h1 h2 h3
    unfold anaOffsetOf
    rw [h1]
    have hin : pyInE "field" (JVal.obj nk) = .ok true := by
      unfold fieldIs at h2
      unfold pyInE
      cases hf : lookupA "field" nk with
      | none => rw [hf] at h2; simp at h2
      | some v => simp [hf]
    simp only [hin, h2, h3, if_true]

/-- Counterexample to C6 as stated: a words-node that also carries an
`inner_hits` key is redirected into that subtree and records nothing. -/
theorem claim_C6_counterexample :
    retrieve_highlighted_words
      (.obj [("field", .s "words"), ("offset", .n 0), ("inner_hits", .obj [])])
      1 "" = .ok [] := by
  simp [retrieve_highlighted_words, retrieveItems, lookupA, fieldIs]

/-- Witness for C6: a minimal words-leaf with no `_nested` sub-object,
outside any term scope. -/
theorem claim_C6_witness :
    retrieve_highlighted_words (.obj [("field", .s "words"), ("offset", .n 3)])
      2 "" =
      .ok [("w" ++ natToStr 2 ++ "_" ++ pyStr (.n 3), [("w0", .n (-1))])] :=
  claim_C6.1 [("field", .s "words"), ("offset", .n 3)] 2 "" (.n 3) (.n (-1))
    rfl rfl rfl (claim_C6.2.1 _ rfl) rfl

/-! ## Extractor robustness and term scoping -/

/-- Counterexample to C4 as stated: on the very input named by the claim —
a words-mapping whose `_nested` sub-object declares `field == 'ana'` but
lacks its own `offset` key — the extractor raises `KeyError` instead of
skipping the node. -/
theorem claim_C4_counterexample :
    retrieve_highlighted_words
      (.obj [("field", .s "words"), ("offset", .n 0),
             ("_nested", .obj [("field", .s "ana")])]) 1 "" =
      .error (.keyError "offset") := by
  simp [retrieve_highlighted_words, anaOffsetOf, lookupA, fieldIs, pyInE]

/-- Property of association-list lookup failure. -/
theorem lookupA_none_forall {α β : Type} [DecidableEq α] {k : α} :
    ∀ {l : List (α × β)}, lookupA k l = none → ∀ kv ∈ l, kv.1 ≠ k := by
  intro l h kv hm
  induction l with
  | nil => exact absurd hm (List.not_mem_nil _)
  | cons p t ih =>
    obtain ⟨a, b⟩ := p
    rw [lookupA] at h
    by_cases ha : a = k
    · rw [if_pos ha] at h
      exact absurd h (by simp)
    · rw [if_neg ha] at h
      rcases List.mem_cons.mp hm with h1 | h1
      · subst h1
        exact ha
      · exact ih h h1

/-- Appending an entry with a different key does not change a lookup. -/
theorem lookupA_append_one {α β : Type} [DecidableEq α] (k : α)
    (l : List (α × β)) (x : α × β) (hx : x.1 ≠ k) :
    lookupA k (l ++ [x]) = lookupA k l := by
  induction l with
  | nil =>
    obtain ⟨a, b⟩ := x
    have hx2 : a ≠ k := hx
    simp [lookupA, hx2]
  | cons p t ih =>
    obtain ⟨a, b⟩ := p
    rw [List.cons_append, lookupA, lookupA]
    by_cases ha : a = k
    · rw [if_pos ha, if_pos ha]
    · rw [if_neg ha, if_neg ha, ih]

/-- Updating a different key does not change a lookup. -/
theorem lookupA_updateA_ne {α β : Type} [DecidableEq α] (key k : α) (nv : β)
    (l : List (α × β)) (h : k ≠ key) :
    lookupA key (updateA k nv l) = lookupA key l := by
  induction l with
  | nil => rfl
  | cons p t ih =>
    obtain ⟨a, b⟩ := p
    rw [updateA]
    by_cases ha : a = k
    · rw [if_pos ha, lookupA, lookupA]
      have : a ≠ key := fun he => h (ha ▸ he)
      rw [if_neg this, if_neg this]
    · rw [if_neg ha, lookupA, lookupA]
      by_cases hk : a = key
      · rw [if_pos hk, if_pos hk]
      · rw [if_neg hk, if_neg hk, ih]

/-- One step of the extractor map merge. -/
theorem unionOffs_cons (acc : Offs) (kv : String × List (String × JVal))
    (t : Offs) :
    unionOffs acc (kv :: t) =
      unionOffs (match lookupA kv.1 acc with
        | none => acc ++ [kv]
        | some s => updateA kv.1 (setUnionBy pairEq s kv.2) acc) t := rfl

/-- Merging a map that lacks `key` does not change the entry at `key`. -/
theorem lookupA_unionOffs_none (acc m : Offs) (key : String)
    (h : lookupA key m = none) :
    lookupA key (unionOffs acc m) = lookupA key acc := by
  induction m generalizing acc with
  | nil => rfl
  | cons kv t ih =>
    have h1 : kv.1 ≠ key := lookupA_none_forall h kv (List.mem_cons_self _ _)
    have h2 : lookupA key t = none := by
      obtain ⟨a, b⟩ := kv
      rw [lookupA] at h
      by_cases ha : a = key
      · rw [if_pos ha] at h
        exact absurd h (by simp)
      · rwa [if_neg ha] at h
    rw [unionOffs_cons]
    cases hl : lookupA kv.1 acc with
    | none =>
      simp only [hl]
      rw [ih _ h2, lookupA_append_one _ _ _ h1]
    | some s =>
      simp only [hl]
      rw [ih _ h2, lookupA_updateA_ne _ _ _ _ h1]

/-- Elements added by guarded set insertion. -/
theorem mem_setInsBy {α : Type} {eq : α → α → Bool} {x y : α} {s : List α}
    (h : x ∈ setInsBy eq y s) : x = y ∨ x ∈ s := by
  unfold setInsBy at h
  by_cases hc : s.any (eq y) = true
  · rw [if_pos hc] at h
    exact Or.inr h
  · rw [if_neg hc] at h
    rcases List.mem_append.mp h with h1 | h1
    · exact Or.inr h1
    · simp at h1
      exact Or.inl h1

/-- Elements of a guarded set union come from either side. -/
theorem mem_setUnionBy {α : Type} {eq : α → α → Bool} {x : α} :
    ∀ {t s : List α}, x ∈ setUnionBy eq s t → x ∈ s ∨ x ∈ t := by
  intro t
  induction t with
  | nil => exact fun h => Or.inl h
  | cons y t' ih =>
    intro s h
    have hstep : setUnionBy eq s (y :: t') = setUnionBy eq (setInsBy eq y s) t' := rfl
    rw [hstep] at h
    rcases ih h with h1 | h1
    · rcases mem_setInsBy h1 with h2 | h2
      · exact Or.inr (h2 ▸ List.mem_cons_self _ _)
      · exact Or.inl h2
    · exact Or.inr (List.mem_cons_of_mem _ h1)

/-- Membership after an association-list update. -/
theorem mem_updateA {α β : Type} [DecidableEq α] {y : α × β} {k : α} {nv : β} :
    ∀ {l : List (α × β)}, y ∈ updateA k nv l → y = (k, nv) ∨ y ∈ l := by
  intro l
  induction l with
  | nil => exact fun h => absurd h (List.not_mem_nil _)
  | cons p t ih =>
    obtain ⟨a, b⟩ := p
    intro h
    rw [updateA] at h
    by_cases ha : a = k
    · rw [if_pos ha] at h
      rcases List.mem_cons.mp h with h1 | h1
      · subst ha
        exact Or.inl h1
      · exact Or.inr (List.mem_cons_of_mem _ h1)
    · rw [if_neg ha] at h
      rcases List.mem_cons.mp h with h1 | h1
      · exact Or.inr (h1 ▸ List.mem_cons_self _ _)
      · rcases ih h1 with h2 | h2
        · exact Or.inl h2
        · exact Or.inr (List.mem_cons_of_mem _ h2)

/-- All recorded pairs in a map carry the given query term id. -/
def allFst (q : String) (m : Offs) : Prop :=
  ∀ kv ∈ m, ∀ p ∈ kv.2, p.1 = q

/-- The merge preserves `allFst`. -/
theorem allFst_unionOffs {q : String} :
    ∀ {m acc : Offs}, allFst q acc → allFst q m → allFst q (unionOffs acc m) := by
  intro m
  induction m with
  | nil => exact fun ha _ => ha
  | cons kv t ih =>
    intro acc ha hm
    have hkv : ∀ p ∈ kv.2, p.1 = q := hm kv (List.mem_cons_self _ _)
    have hm' : allFst q t := fun kv2 h2 => hm kv2 (List.mem_cons_of_mem _ h2)
    rw [unionOffs_cons]
    apply ih ?_ hm'
    cases hl : lookupA kv.1 acc with
    | none =>
      simp only [hl]
      intro kv2 h2 p hp
      rcases List.mem_append.mp h2 with h3 | h3
      · exact ha kv2 h3 p hp
      · simp at h3
        subst h3
        exact hkv p hp
    | some s =>
      simp only [hl]
      intro kv2 h2 p hp
      rcases mem_updateA h2 with h3 | h3
      · subst h3
        rcases mem_setUnionBy hp with h4 | h4
        · exact ha _ (lookupA_mem hl) p h4
        · exact hkv p h4
      · exact ha kv2 h3 p hp

/-- Once a non-empty query-term scope is active, every pair the extractor
records carries exactly that term id (joint induction over the three
mutually recursive functions, on the size of the input). -/
theorem scope_all : ∀ N : Nat,
    (∀ sv : JVal, sizeOf sv ≤ N → ∀ (n : Nat) (q : String) (m : Offs),
      q ≠ "" → retrieve_highlighted_words sv n q = .ok m → allFst q m) ∧
    (∀ items : List JVal, sizeOf items ≤ N →
      ∀ (n : Nat) (q : String) (acc m : Offs), q ≠ "" → allFst q acc →
      retrieveArr items n q acc = .ok m → allFst q m) ∧
    (∀ kvs : List (String × JVal), sizeOf kvs ≤ N →
      ∀ (n : Nat) (q : String) (acc m : Offs), q ≠ "" → allFst q acc →
      retrieveItems kvs n q acc = .ok m → allFst q m) := by
  intro N
  induction N with
  | zero =>
    refine ⟨?_, ?_, ?_⟩
    · intro sv hsz
      exact absurd hsz (by cases sv <;> simp)
    · intro items hsz
      exact absurd hsz (by cases items <;> simp)
    · intro kvs hsz
      exact absurd hsz (by cases kvs <;> simp)
  | succ N ih =>
    obtain ⟨ihV, ihA, ihI⟩ := ih
    refine ⟨?_, ?_, ?_⟩
    · intro sv hsz n q m hq h
      cases sv with
      | null =>
        rw [retrieve_highlighted_words] at h
        exact absurd h (by simp)
      | b v =>
        rw [retrieve_highlighted_words] at h
        exact absurd h (by simp)
      | n v =>
        rw [retrieve_highlighted_words] at h
        exact absurd h (by simp)
      | s v =>
        rw [retrieve_highlighted_words] at h
        split at h
        · exact absurd h (by simp)
        · simp only [Except.ok.injEq] at h
          subst h
          intro kv hkv
          exact absurd hkv (List.not_mem_nil _)
      | arr items =>
        rw [retrieve_highlighted_words] at h
        split at h
        · exact absurd h (by simp)
        · refine ihA items ?_ n q [] m hq ?_ h
          · simp at hsz
            omega
          · intro kv hkv
            exact absurd hkv (List.not_mem_nil _)
      | obj kvs =>
        have hkvs : sizeOf kvs ≤ N := by
          simp at hsz
          omega
        rw [retrieve_highlighted_words] at h
        split at h
        · rename_i v heq
          have hv : sizeOf v ≤ N := by
            have h1 := List.sizeOf_lt_of_mem (lookupA_mem heq)
            simp at h1
            omega
          exact ihV v hv n q m hq h
        · split at h
          · split at h
            · split at h
              · exact absurd h (by simp)
              · split at h
                · simp only [Except.ok.injEq] at h
                  subst h
                  intro kv hkv p hp
                  simp only [List.mem_singleton] at hkv
                  subst hkv
                  simp only [List.mem_singleton] at hp
                  subst hp
                  simp only [if_neg hq]
                · exact absurd h (by simp)
            · simp only [Except.ok.injEq] at h
              subst h
              intro kv hkv
              exact absurd hkv (List.not_mem_nil _)
          · refine ihI kvs hkvs n q [] m hq ?_ h
            intro kv hkv
            exact absurd hkv (List.not_mem_nil _)
    · intro items hsz n q acc m hq hacc h
      cases items with
      | nil =>
        rw [retrieveArr] at h
        simp only [Except.ok.injEq] at h
        subst h
        exact hacc
      | cons el rest =>
        have hel : sizeOf el ≤ N := by
          simp at hsz
          omega
        have hrest : sizeOf rest ≤ N := by
          simp at hsz
          omega
        rw [retrieveArr] at h
        split at h
        · split at h
          · exact absurd h (by simp)
          · rename_i m2 heq
            have h2 : allFst q m2 := ihV el hel n q m2 hq heq
            exact ihA rest hrest n q _ m hq (allFst_unionOffs hacc h2) h
        · exact ihA rest hrest n q acc m hq hacc h
    · intro kvs hsz n q acc m hq hacc h
      cases kvs with
      | nil =>
        rw [retrieveItems] at h
        simp only [Except.ok.injEq] at h
        subst h
        exact hacc
      | cons kv rest =>
        obtain ⟨k, v⟩ := kv
        have hv : sizeOf v ≤ N := by
          simp at hsz
          omega
        have hrest : sizeOf rest ≤ N := by
          simp at hsz
          omega
        rw [retrieveItems] at h
        split at h
        · exact ihI rest hrest n q acc m hq hacc h
        · have hcur : (if isTermKey k ∧ q = "" then k else q) = q := by
            rw [if_neg]
            rintro ⟨_, h2⟩
            exact hq h2
          rw [hcur] at h
          split at h
          · dsimp only at h
            split at h
            · exact absurd h (by simp)
            · rename_i m2 heq
              have h2 : allFst q m2 := ihV v hv n q m2 hq heq
              exact ihI rest hrest n q _ m hq (allFst_unionOffs hacc h2) h
          · exact ihI rest hrest n q acc m hq hacc h

/-- C5: for a tree whose root introduces two subtrees under distinct
query-term keys, and for a token id not referenced by the second subtree,
every pair recorded for that token carries the first subtree's term id and
never the other's — scope is established only when none is active, and a
subtree under a key naming a different term is skipped. -/
theorem claim_C5 (t1 t2 : JVal) (k1 k2 : String) (n : Nat) (m m1 m2 : Offs)
    (key : String) (pairs : List (String × JVal))
    (hk1 : isTermKey k1 = true) (hk2 : isTermKey k2 = true) (hne : k1 ≠ k2)
    (hc1 : isContainer t1 = true) (hc2 : isContainer t2 = true)
    (h1 : retrieve_highlighted_words t1 n k1 = .ok m1)
    (h2 : retrieve_highlighted_words t2 n k2 = .ok m2)
    (hroot : retrieve_highlighted_words (.obj [(k1, t1), (k2, t2)]) n "" = .ok m)
    (hdisj : lookupA key m2 = none)
    (hpairs : lookupA key m = some pairs) :
    ∀ p ∈ pairs, p.1 = k1 ∧ p.1 ≠ k2 := by
  have hne1 : k1 ≠ "inner_hits" := by
    rintro rfl
    exact absurd hk1 (by decide)
  have hne2 : k2 ≠ "inner_hits" := by
    rintro rfl
    exact absurd hk2 (by decide)
  have hnf1 : k1 ≠ "field" := by
    rintro rfl
    exact absurd hk1 (by decide)
  have hnf2 : k2 ≠ "field" := by
    rintro rfl
    exact absurd hk2 (by decide)
  have hq1 : k1 ≠ "" := by
    rintro rfl
    exact absurd hk1 (by decide)
  have hlook : lookupA "inner_hits" [(k1, t1), (k2, t2)] = none := by
    rw [lookupA, if_neg hne1, lookupA, if_neg hne2]
    rfl
  have hfield : fieldIs [(k1, t1), (k2, t2)] "words" = false := by
    unfold fieldIs
    rw [lookupA, if_neg hnf1, lookupA, if_neg hnf2]
    rfl
  rw [retrieve_highlighted_words] at hroot
  split at hroot
  · rename_i v heq
    rw [hlook] at heq
    exact absurd heq (by simp)
  · rw [hfield] at hroot
    simp only [Bool.false_eq_true, if_false] at hroot
    rw [retrieveItems] at hroot
    rw [if_neg (by rintro ⟨-, hx, -⟩; exact hx rfl)] at hroot
    dsimp only at hroot
    rw [if_pos (⟨hk1, rfl⟩ : isTermKey k1 = true ∧ ("" : String) = ""),
      if_pos hc1, h1] at hroot
    dsimp only at hroot
    rw [retrieveItems] at hroot
    rw [if_neg (by rintro ⟨-, hx, -⟩; exact hx rfl)] at hroot
    dsimp only at hroot
    rw [if_pos (⟨hk2, rfl⟩ : isTermKey k2 = true ∧ ("" : String) = ""),
      if_pos hc2, h2] at hroot
    dsimp only at hroot
    rw [retrieveItems] at hroot
    simp only [Except.ok.injEq] at hroot
    subst hroot
    have hL : lookupA key (unionOffs (unionOffs [] m1) m2) =
        lookupA key (unionOffs [] m1) :=
      lookupA_unionOffs_none _ _ _ hdisj
    rw [hL] at hpairs
    have hAll : allFst k1 (unionOffs [] m1) :=
      allFst_unionOffs (fun kv hkv => absurd hkv (List.not_mem_nil _))
        ((scope_all (sizeOf t1)).1 t1 le_rfl n k1 m1 hq1 h1)
    have hmem := lookupA_mem hpairs
    intro p hp
    have hp1 := hAll _ hmem p hp
    exact ⟨hp1, hp1 ▸ hne⟩

/-- Witness for C5: two words-subtrees under keys `w1` and `w2` matching
tokens 0 and 1 respectively. -/
theorem claim_C5_witness :
    ("w1", JVal.n (-1)).1 = "w1" ∧ ("w1", JVal.n (-1)).1 ≠ "w2" :=
  claim_C5 (.obj [("field", .s "words"), ("offset", .n 0)])
    (.obj [("field", .s "words"), ("offset", .n 1)])
    "w1" "w2" 1
    [("w1_0", [("w1", .n (-1))]), ("w1_1", [("w2", .n (-1))])]
    [("w1_0", [("w1", .n (-1))])]
    [("w1_1", [("w2", .n (-1))])]
    "w1_0" [("w1", JVal.n (-1))]
    rfl rfl (by decide) rfl rfl
    (by simp [retrieve_highlighted_words, anaOffsetOf, lookupA, fieldIs,
      natToStr, natDigits, pyStr, pyRepr, intToStr, hashable])
    (by simp [retrieve_highlighted_words, anaOffsetOf, lookupA, fieldIs,
      natToStr, natDigits, pyStr, pyRepr, intToStr, hashable])
    (by simp [retrieve_highlighted_words, retrieveItems, anaOffsetOf, lookupA,
      fieldIs, natToStr, natDigits, pyStr, pyRepr, intToStr, isTermKey,
      isContainer, unionOffs, hashable, setUnionBy, setInsBy, updateA, pairEq,
      scalarEq])
    rfl rfl ("w1", JVal.n (-1)) (List.mem_singleton.mpr rfl)

/-- Whether an extractor result is a map rather than a raised exception. -/
def resultOk : Except PyErr Offs → Bool
  | .ok _ => true
  | .error _ => false

/-- Well-formedness of a `_nested` annotation: absent, or an object that,
when it declares `field == 'ana'`, carries a hashable `offset`. -/
def goodNested (kvs : List (String × JVal)) : Bool :=
  match lookupA "_nested" kvs with
  | none => true
  | some (.obj nk) =>
    if fieldIs nk "ana" then
      match lookupA "offset" nk with
      | some a => hashable a
      | none => false
    else true
  | some _ => false

/-- Well-formedness of an `inner_hits` value: absent, a container, or a
string not containing the text `inner_hits`. -/
def goodInner (kvs : List (String × JVal)) : Bool :=
  match lookupA "inner_hits" kvs with
  | none => true
  | some (.obj _) => true
  | some (.arr _) => true
  | some (.s v) => !containsSub "inner_hits".toList v.toList
  | some _ => false

mutual

/-- Trees on which the extractor cannot raise: every `_nested` and
`inner_hits` annotation is well-formed and no list contains the bare
string `inner_hits`. -/
def goodTree : JVal → Bool
  | .obj kvs => goodNested kvs && goodInner kvs && goodFields kvs
  | .arr items => !(items.any (isStrVal "inner_hits")) && goodItems items
  | _ => true
termination_by v => sizeOf v
decreasing_by
  all_goals simp

/-- `goodTree` on every value of a field list. -/
def goodFields : List (String × JVal) → Bool
  | [] => true
  | (_, v) :: rest => goodTree v && goodFields rest
termination_by l => sizeOf l
decreasing_by
  all_goals simp
  all_goals omega

/-- `goodTree` on every element of a list. -/
def goodItems : List JVal → Bool
  | [] => true
  | v :: rest => goodTree v && goodItems rest
termination_by l => sizeOf l
decreasing_by
  all_goals simp
  all_goals omega

end

/-- Field values of a good field list are good. -/
theorem goodFields_mem {kvs : List (String × JVal)}
    (h : goodFields kvs = true) {k : String} {v : JVal}
    (hm : (k, v) ∈ kvs) : goodTree v = true := by
  induction kvs with
  | nil => exact absurd hm (List.not_mem_nil _)
  | cons p rest ih =>
    obtain ⟨a, b⟩ := p
    rw [goodFields, Bool.and_eq_true] at h
    rcases List.mem_cons.mp hm with h1 | h1
    · cases h1
      exact h.1
    · exact ih h.2 h1

/-- Elements of a good item list are good. -/
theorem goodItems_mem {items : List JVal} (h : goodItems items = true)
    {v : JVal} (hm : v ∈ items) : goodTree v = true := by
  induction items with
  | nil => exact absurd hm (List.not_mem_nil _)
  | cons x rest ih =>
    rw [goodItems, Bool.and_eq_true] at h
    rcases List.mem_cons.mp hm with h1 | h1
    · exact h1 ▸ h.1
    · exact ih h.2 h1

/-- On well-formed trees the extractor (and its two loops) always
returns a map (joint induction on the size of the input). -/
theorem good_total : ∀ N : Nat,
    (∀ sv : JVal, sizeOf sv ≤ N → isContainer sv = true → goodTree sv = true →
      ∀ (n : Nat) (q : String),
      resultOk (retrieve_highlighted_words sv n q) = true) ∧
    (∀ items : List JVal, sizeOf items ≤ N → goodItems items = true →
      ∀ (n : Nat) (q : String) (acc : Offs),
      resultOk (retrieveArr items n q acc) = true) ∧
    (∀ kvs : List (String × JVal), sizeOf kvs ≤ N → goodFields kvs = true →
      ∀ (n : Nat) (q : String) (acc : Offs),
      resultOk (retrieveItems kvs n q acc) = true) := by
  intro N
  induction N with
  | zero =>
    refine ⟨?_, ?_, ?_⟩
    · intro sv hsz
      exact absurd hsz (by cases sv <;> simp)
    · intro items hsz
      exact absurd hsz (by cases items <;> simp)
    · intro kvs hsz
      exact absurd hsz (by cases kvs <;> simp)
  | succ N ih =>
    obtain ⟨ihV, ihA, ihI⟩ := ih
    refine ⟨?_, ?_, ?_⟩
    · intro sv hsz hc hg n q
      cases sv with
      | null => exact absurd hc (by simp [isContainer])
      | b v => exact absurd hc (by simp [isContainer])
      | n v => exact absurd hc (by simp [isContainer])
      | s v => exact absurd hc (by simp [isContainer])
      | arr items =>
        rw [goodTree, Bool.and_eq_true] at hg
        obtain ⟨hg1, hg2⟩ := hg
        simp only [Bool.not_eq_true'] at hg1
        rw [retrieve_highlighted_words]
        rw [if_neg (by simp [hg1])]
        refine ihA items ?_ hg2 n q []
        simp at hsz
        omega
      | obj kvs =>
        have hkvs : sizeOf kvs ≤ N := by
          simp at hsz
          omega
        rw [goodTree, Bool.and_eq_true, Bool.and_eq_true] at hg
        obtain ⟨⟨hnest, hinner⟩, hfields⟩ := hg
        rw [retrieve_highlighted_words]
        split
        · rename_i v heq
          have hvsz : sizeOf v ≤ N := by
            have h1 := List.sizeOf_lt_of_mem (lookupA_mem heq)
            simp at h1
            omega
          have hvgood : goodTree v = true :=
            goodFields_mem hfields (lookupA_mem heq)
          rw [goodInner, heq] at hinner
          cases v with
          | obj kvs2 => exact ihV _ hvsz rfl hvgood n q
          | arr items2 => exact ihV _ hvsz rfl hvgood n q
          | s str =>
            dsimp only at hinner
            simp only [Bool.not_eq_true'] at hinner
            rw [retrieve_highlighted_words]
            rw [if_neg (by rw [hinner]; simp)]
            rfl
          | null => exact absurd hinner (by simp)
          | b bv => exact absurd hinner (by simp)
          | n nv => exact absurd hinner (by simp)
        · split
          · cases hoff : lookupA "offset" kvs with
            | none =>
              simp only [hoff]
              rfl
            | some off =>
              simp only [hoff]
              rw [goodNested] at hnest
              cases hnested : lookupA "_nested" kvs with
              | none =>
                rw [hnested] at hnest
                rw [anaOffsetOf, hnested]
                rfl
              | some nv =>
                rw [hnested] at hnest
                cases nv with
                | obj nk =>
                  dsimp only at hnest
                  rw [anaOffsetOf, hnested]
                  cases hf : lookupA "field" nk with
                  | none =>
                    simp [pyInE, hf, hashable, resultOk]
                  | some fv =>
                    by_cases hana : fieldIs nk "ana" = true
                    · rw [if_pos hana] at hnest
                      cases hoo : lookupA "offset" nk with
                      | none =>
                        rw [hoo] at hnest
                        exact absurd hnest (by simp)
                      | some a =>
                        rw [hoo] at hnest
                        dsimp only at hnest
                        simp [pyInE, hf, hana, hoo, hnest, resultOk]
                    · rw [if_neg hana] at hnest
                      rw [Bool.not_eq_true] at hana
                      simp [pyInE, hf, hana, hashable, resultOk]
                | null => exact absurd hnest (by simp)
                | b bv => exact absurd hnest (by simp)
                | n nv2 => exact absurd hnest (by simp)
                | s sv2 => exact absurd hnest (by simp)
                | arr av => exact absurd hnest (by simp)
          · exact ihI kvs hkvs hfields n q []
    · intro items hsz hg n q acc
      cases items with
      | nil =>
        rw [retrieveArr]
        rfl
      | cons el rest =>
        rw [goodItems, Bool.and_eq_true] at hg
        have hel : sizeOf el ≤ N := by
          simp at hsz
          omega
        have hrest : sizeOf rest ≤ N := by
          simp at hsz
          omega
        rw [retrieveArr]
        split
        · rename_i hcont
          have hok := ihV el hel hcont hg.1 n q
          cases hres : retrieve_highlighted_words el n q with
          | error e =>
            rw [hres] at hok
            exact absurd hok (by simp [resultOk])
          | ok m2 =>
            simp only [hres]
            exact ihA rest hrest hg.2 n q _
        · exact ihA rest hrest hg.2 n q acc
    · intro kvs hsz hg n q acc
      cases kvs with
      | nil =>
        rw [retrieveItems]
        rfl
      | cons kv rest =>
        obtain ⟨k, v⟩ := kv
        rw [goodFields, Bool.and_eq_true] at hg
        have hv : sizeOf v ≤ N := by
          simp at hsz
          omega
        have hrest : sizeOf rest ≤ N := by
          simp at hsz
          omega
        rw [retrieveItems]
        split
        · exact ihI rest hrest hg.2 n q acc
        · dsimp only
          split
          · rename_i hcont
            have hok := ihV v hv hcont hg.1 n
              (if isTermKey k ∧ q = "" then k else q)
            cases hres : retrieve_highlighted_words v n
                (if isTermKey k ∧ q = "" then k else q) with
            | error e =>
              rw [hres] at hok
              exact absurd hok (by simp [resultOk])
            | ok m2 =>
              simp only [hres]
              exact ihI rest hrest hg.2 n q _
          · exact ihI rest hrest hg.2 n q acc

/-- C4 (amended): the extractor never raises on trees whose `_nested`
sub-objects are well-formed objects (carrying a hashable `offset` whenever
they declare `field == 'ana'`) and whose `inner_hits` values are
containers; on the claim's own malformed input — a `_nested` sub-object
with `field == 'ana'` but no `offset` — it raises `KeyError` instead of
skipping (see the counterexample). -/
theorem claim_C4 (sv : JVal) (n : Nat) (q : String)
    (hc : isContainer sv = true) (hg : goodTree sv = true) :
    resultOk (retrieve_highlighted_words sv n q) = true :=
  (good_total (sizeOf sv)).1 sv le_rfl hc hg n q

/-- Witness for C4 on a small well-formed words-leaf. -/
theorem claim_C4_witness :
    isContainer (JVal.obj [("field", .s "words"), ("offset", .n 5)]) = true ∧
    goodTree (JVal.obj [("field", .s "words"), ("offset", .n 5)]) = true ∧
    resultOk (retrieve_highlighted_words
      (JVal.obj [("field", .s "words"), ("offset", .n 5)]) 1 "") = true :=
  ⟨rfl,
   by simp [goodTree, goodNested, goodInner, goodFields, lookupA],
   claim_C4 _ 1 "" rfl
     (by simp [goodTree, goodNested, goodInner, goodFields, lookupA])⟩

/-! ## Batch sentinels (C8) and degraded sentence paths (C9) -/

/-- C8 (amended): `process_word_json` returns the `Nothing found.`
sentinel whenever the total-hit count is missing or not positive;
`process_sent_json` returns its sentinel only when the `hits` block or the
`total` field is missing — an explicit zero total yields an empty
best-effort result instead (see the counterexample). -/
theorem claim_C8 :
    (∀ (vw : Viewer) (resp : SentResponse), resp.hits = none →
      process_sent_json vw resp = .ok ⟨0, 0, 0, 1, "Nothing found.", none⟩) ∧
    (∀ (vw : Viewer) (hb : SentHits) (agg : Option Int), hb.total = none →
      process_sent_json vw ⟨some hb, agg⟩ =
        .ok ⟨0, 0, 0, 1, "Nothing found.", none⟩) ∧
    (∀ resp : WordResponse, resp.hits = none →
      process_word_json resp = .ok ⟨0, 0, 0, "Nothing found.", none⟩) ∧
    (∀ (hb : WordHits) (agg : Option Int), hb.total = none →
      process_word_json ⟨some hb, agg⟩ =
        .ok ⟨0, 0, 0, "Nothing found.", none⟩) ∧
    (∀ (hb : WordHits) (agg : Option Int) (t : Int), hb.total = some t →
      t ≤ 0 → process_word_json ⟨some hb, agg⟩ =
        .ok ⟨0, 0, 0, "Nothing found.", none⟩) := by
  refine ⟨?_, ?_, ?_, ?_, ?_⟩
  · intro vw resp h
    unfold process_sent_json
    rw [h]
  · intro vw hb agg h
    unfold process_sent_json
    dsimp only
    rw [h]
  · intro resp h
    unfold process_word_json
    rw [h]
  · intro hb agg h
    unfold process_word_json
    dsimp only
    rw [h]
  · intro hb agg t h ht
    unfold process_word_json
    dsimp only
    rw [h]
    dsimp only
    rw [if_pos ht]

/-- Counterexample to C8 as stated: a sentence response with an explicit
zero total is not answered with the sentinel — the message is empty and a
`contexts` key is present. -/
theorem claim_C8_counterexample :
    process_sent_json ⟨[], [], fun _ => .null⟩ ⟨some ⟨some 0, []⟩, none⟩ =
      .ok ⟨0, 0, 0, 1, "", some []⟩ ∧
    ("" : String) ≠ "Nothing found." :=
  ⟨rfl, by decide⟩

/-- Witness for C8 on responses with missing or non-positive totals. -/
theorem claim_C8_witness :
    process_sent_json ⟨[], [], fun _ => .null⟩ ⟨none, none⟩ =
      .ok ⟨0, 0, 0, 1, "Nothing found.", none⟩ ∧
    process_word_json ⟨some ⟨some 0, []⟩, none⟩ =
      .ok ⟨0, 0, 0, "Nothing found.", none⟩ :=
  ⟨claim_C8.1 ⟨[], [], fun _ => .null⟩ ⟨none, none⟩ rfl,
   claim_C8.2.2.2.2 ⟨some 0, []⟩ none 0 rfl (by decide)⟩

/-- A non-empty string has positive length. -/
theorem string_ne_length {s : String} (h : s ≠ "") : ¬ (s.length ≤ 0) := by
  intro hle
  apply h
  have h0 : s.data.length = 0 := by
    have : s.length = s.data.length := rfl
    omega
  have h1 : s.data = [] := List.length_eq_zero.mp h0
  cases s with
  | mk data =>
    have h2 : data = [] := h1
    rw [h2]

/-- C9: on each degraded path of `process_sentence` — missing `_source`,
missing or empty text, or missing `words` — a successful call returns the
languages-only record: no header, no `relations_satisfied`, and, on the
missing-`words` path, the highlighter-marked text verbatim (markers kept,
no newline substitution, no wrappers). -/
theorem claim_C9 :
    (∀ (vw : Viewer) (s : Hit) (numSent : Nat) (getHeader : Bool)
      (lang : String), s.source = none →
      process_sentence vw s numSent getHeader lang = .ok ⟨none, [], none, lang⟩) ∧
    (∀ (vw : Viewer) (s : Hit) (numSent : Nat) (getHeader : Bool)
      (lang : String) (src : SentSource) (res : SentResult),
      s.source = some src → (src.text = none ∨ src.text = some "") →
      process_sentence vw s numSent getHeader lang = .ok res →
      res = ⟨none, [], none, lang⟩) ∧
    (∀ (vw : Viewer) (s : Hit) (numSent : Nat) (getHeader : Bool)
      (lang : String) (src : SentSource) (txt : String) (res : SentResult),
      s.source = some src → src.text = some txt → txt ≠ "" →
      src.words = none →
      process_sentence vw s numSent getHeader lang = .ok res →
      res = ⟨none, (hlTextOf s.highlight txt).toList.map Piece.raw, none, lang⟩) := by
  refine ⟨?_, ?_, ?_⟩
  · intro vw s numSent getHeader lang h
    unfold process_sentence
    rw [h]
  · intro vw s numSent getHeader lang src res hsrc htxt h
    unfold process_sentence at h
    rw [hsrc] at h
    dsimp only at h
    split at h
    · exact absurd h (by simp)
    · rcases htxt with htxt | htxt
      · rw [htxt] at h
        dsimp only at h
        simp only [Except.ok.injEq] at h
        exact h.symm
      · rw [htxt] at h
        dsimp only at h
        rw [if_pos (by decide)] at h
        simp only [Except.ok.injEq] at h
        exact h.symm
  · intro vw s numSent getHeader lang src txt res hsrc htxt hne hwords h
    unfold process_sentence at h
    rw [hsrc] at h
    dsimp only at h
    split at h
    · exact absurd h (by simp)
    · rw [htxt] at h
      dsimp only at h
      rw [if_neg (string_ne_length hne)] at h
      split at h
      · exact absurd h (by simp)
      · rw [hwords] at h
        dsimp only at h
        simp only [Except.ok.injEq] at h
        exact h.symm

/-- Witness for C9: the three degraded paths at concrete hits. -/
theorem claim_C9_witness :
    process_sentence ⟨[], [], fun _ => .null⟩ ⟨none, none, none, none⟩ 1 false "en" =
      .ok ⟨none, [], none, "en"⟩ ∧
    (⟨none, [], none, "en"⟩ : SentResult) = ⟨none, [], none, "en"⟩ ∧
    (⟨none, ("a<em>b\n".toList.map Piece.raw), none, "en"⟩ : SentResult) =
      ⟨none, (hlTextOf (some (.single "a<em>b\n")) "ab").toList.map Piece.raw,
        none, "en"⟩ :=
  ⟨claim_C9.1 ⟨[], [], fun _ => .null⟩ ⟨none, none, none, none⟩ 1 false "en" rfl,
   claim_C9.2.1 ⟨[], [], fun _ => .null⟩
     ⟨some ⟨none, none, none, none⟩, none, none, none⟩ 1 false "en"
     ⟨none, none, none, none⟩ ⟨none, [], none, "en"⟩ rfl (Or.inl rfl) rfl,
   claim_C9.2.2 ⟨[], [], fun _ => .null⟩
     ⟨some ⟨none, none, some "ab", none⟩, some (.single "a<em>b\n"), none, none⟩
     1 false "en" ⟨none, none, some "ab", none⟩ "ab"
     ⟨none, ("a<em>b\n".toList.map Piece.raw), none, "en"⟩
     rfl rfl (by decide) rfl rfl⟩

/-! ## The sweep: coordinate invariance (C1) and tag balance (C3) -/

/-- `stripPieces` distributes over append. -/
theorem stripPieces_append (a b : List Piece) :
    stripPieces (a ++ b) = stripPieces a ++ stripPieces b := by
  induction a with
  | nil => rfl
  | cons p t ih => cases p <;> simp [stripPieces, ih]

/-- Stripping a content piece recovers exactly the original character. -/
theorem strip_sweepContent (n i : Nat) (c : Char) (rest : List Char)
    (tl : List Piece) :
    stripPieces (sweepContent n i c rest :: tl) = c :: stripPieces tl := by
  unfold sweepContent
  by_cases hc : c = '\n'
  · subst hc
    rw [if_pos rfl]
    by_cases hp : (i = 0 ∨ i = n - 1 ∨ rest.all (fun x => x = '\n') = true)
    · rw [if_pos hp]
      rfl
    · rw [if_neg hp]
      rfl
  · rw [if_neg hc]
    rfl

/-- The sweep emits, besides markup, exactly one content piece per
remaining character, in order: stripping its output restores the
remaining text. -/
theorem sweep_strip (src : SentSource) (mwo : Offs) (st en : OffMap)
    (n : Nat) :
    ∀ (rest : List Char) (i : Nat) (cw : List String) (ps : List Piece),
      sweepGo src mwo st en n i rest cw = .ok ps → stripPieces ps = rest := by
  intro rest
  induction rest with
  | nil =>
    intro i cw ps h
    rw [sweepGo] at h
    simp only [Except.ok.injEq] at h
    subst h
    by_cases hcw : cw.isEmpty
    · simp [hcw, stripPieces]
    · simp [hcw, stripPieces]
  | cons c rest' ih =>
    intro i cw ps h
    rw [sweepGo] at h
    split at h
    · cases hsw : sweepGo src mwo st en n (i + 1) rest' cw with
      | error e =>
        rw [hsw] at h
        exact absurd h (by simp)
      | ok tl =>
        simp only [hsw, Except.ok.injEq] at h
        subst h
        rw [strip_sweepContent, ih _ _ _ hsw]
    · dsimp only at h
      split at h
      · cases hbs : build_span src (sweepNewCur st en i cw) mwo with
        | error e =>
          rw [hbs] at h
          exact absurd h (by simp)
        | ok sp =>
          cases hsw : sweepGo src mwo st en n (i + 1) rest'
              (sweepNewCur st en i cw) with
          | error e =>
            rw [hbs, hsw] at h
            exact absurd h (by simp)
          | ok tl =>
            simp only [hbs, hsw, Except.ok.injEq] at h
            subst h
            rw [stripPieces_append]
            have h1 : stripPieces (if (!cw.isEmpty) = true
                then [Piece.closeTag] else []) = [] := by
              split <;> rfl
            rw [h1, List.nil_append]
            rw [show stripPieces (Piece.openTag sp :: sweepContent n i c rest' :: tl) =
              stripPieces (sweepContent n i c rest' :: tl) from rfl]
            rw [strip_sweepContent, ih _ _ _ hsw]
      · cases hsw : sweepGo src mwo st en n (i + 1) rest'
            (sweepNewCur st en i cw) with
        | error e =>
          rw [hsw] at h
          exact absurd h (by simp)
        | ok tl =>
          simp only [hsw, Except.ok.injEq] at h
          subst h
          rw [stripPieces_append]
          have h1 : stripPieces (if (!cw.isEmpty) = true
              then [Piece.closeTag] else []) = [] := by
            split <;> rfl
          rw [h1, List.nil_append]
          rw [strip_sweepContent, ih _ _ _ hsw]

/-- C1: for every sentence hit with a source, non-empty text and a word
list, a successful `process_sentence` renders a text whose markup strips
back to exactly the original raw text — the sweep neither reorders nor
drops nor duplicates characters, and newline substitutions stand for the
newlines they replaced. -/
theorem claim_C1 (vw : Viewer) (s : Hit) (numSent : Nat) (getHeader : Bool)
    (lang : String) (src : SentSource) (txt : String) (ws : List Word)
    (res : SentResult)
    (hsrc : s.source = some src) (htxt : src.text = some txt)
    (hne : txt ≠ "") (hws : src.words = some ws)
    (h : process_sentence vw s numSent getHeader lang = .ok res) :
    stripPieces res.pieces = txt.toList := by
  unfold process_sentence at h
  rw [hsrc] at h
  dsimp only at h
  split at h
  · exact absurd h (by simp)
  · rw [htxt] at h
    dsimp only at h
    rw [if_neg (string_ne_length hne)] at h
    split at h
    · exact absurd h (by simp)
    · rw [hws] at h
      dsimp only at h
      split at h
      · exact absurd h (by simp)
      · rename_i pieces heq
        simp only [Except.ok.injEq] at h
        subst h
        exact sweep_strip _ _ _ _ _ _ _ _ _ heq

/-- Witness for C1 on a two-character sentence with an empty word list. -/
theorem claim_C1_witness :
    stripPieces (SentResult.pieces ⟨some HVal.emptyObj, [Piece.raw 'a', Piece.raw 'b'], some true, "en"⟩) = "ab".toList :=
  claim_C1 ⟨[], [], fun _ => .null⟩
    ⟨some ⟨none, none, some "ab", some []⟩, none, none, none⟩ 1 false "en"
    ⟨none, none, some "ab", some []⟩ "ab" []
    ⟨some HVal.emptyObj, [Piece.raw 'a', Piece.raw 'b'], some true, "en"⟩
    rfl rfl (by decide) rfl rfl

/-- Tag-balance automaton over pieces: `opened` says whether a wrapper is
currently open; a close tag requires one open, an open tag requires none
(so nesting depth never exceeds one), and at the end nothing stays open. -/
def wellTagged : List Piece → Bool → Bool
  | [], opened => !opened
  | .raw _ :: t, opened => wellTagged t opened
  | .nl _ :: t, opened => wellTagged t opened
  | .closeTag :: t, opened => opened && wellTagged t false
  | .openTag _ :: t, opened => !opened && wellTagged t true

/-- Content pieces do not affect the tag automaton. -/
theorem wellTagged_sweepContent (n i : Nat) (c : Char) (rest : List Char)
    (tl : List Piece) (f : Bool) :
    wellTagged (sweepContent n i c rest :: tl) f = wellTagged tl f := by
  unfold sweepContent
  by_cases hc : c = '\n'
  · subst hc
    rw [if_pos rfl]
    by_cases hp : (i = 0 ∨ i = n - 1 ∨ rest.all (fun x => x = '\n') = true)
    · rw [if_pos hp]
      rfl
    · rw [if_neg hp]
      rfl
  · rw [if_neg hc]
    rfl

/-- When no id opens at this offset and no wrapper is open, the boundary
step leaves the open set unchanged. -/
theorem sweepNewCur_stay (offStarts offEnds : OffMap) (i : Nat)
    (cw : List String) (hst : lookupA (i : Int) offStarts = none)
    (hcw : cw.isEmpty = true) :
    sweepNewCur offStarts offEnds i cw = cw := by
  unfold sweepNewCur
  simp [hst, hcw]

/-- The sweep keeps the wrapper state consistent with the open-word set:
its output is a stack-balanced tag sequence of depth at most one, closed
at end-of-text. -/
theorem sweep_tagged (src : SentSource) (mwo : Offs) (st en : OffMap)
    (n : Nat) :
    ∀ (rest : List Char) (i : Nat) (cw : List String) (ps : List Piece),
      sweepGo src mwo st en n i rest cw = .ok ps →
      wellTagged ps (!cw.isEmpty) = true := by
  intro rest
  induction rest with
  | nil =>
    intro i cw ps h
    rw [sweepGo] at h
    simp only [Except.ok.injEq] at h
    subst h
    by_cases hcw : cw.isEmpty = true
    · simp [hcw, wellTagged]
    · have hcwf : cw.isEmpty = false := by
        revert hcw
        cases cw.isEmpty <;> simp
      simp [hcwf, wellTagged]
  | cons c rest' ih =>
    intro i cw ps h
    rw [sweepGo] at h
    split at h
    · cases hsw : sweepGo src mwo st en n (i + 1) rest' cw with
      | error e =>
        rw [hsw] at h
        exact absurd h (by simp)
      | ok tl =>
        simp only [hsw, Except.ok.injEq] at h
        subst h
        rw [wellTagged_sweepContent]
        exact ih _ _ _ hsw
    · dsimp only at h
      split at h
      · rename_i hcond
        cases hbs : build_span src (sweepNewCur st en i cw) mwo with
        | error e =>
          rw [hbs] at h
          exact absurd h (by simp)
        | ok sp =>
          cases hsw : sweepGo src mwo st en n (i + 1) rest'
              (sweepNewCur st en i cw) with
          | error e =>
            rw [hbs, hsw] at h
            exact absurd h (by simp)
          | ok tl =>
            simp only [hbs, hsw, Except.ok.injEq] at h
            subst h
            have hA : (!(sweepNewCur st en i cw).isEmpty) = true := by
              simp only [Bool.and_eq_true] at hcond
              exact hcond.1
            have h3 := ih _ _ _ hsw
            rw [hA] at h3
            by_cases hcw : cw.isEmpty = true
            · rw [if_neg (by simp [hcw])]
              simp only [List.nil_append]
              rw [wellTagged]
              simp only [hcw]
              rw [wellTagged_sweepContent]
              simp [h3]
            · have hcwf : cw.isEmpty = false := by
                revert hcw
                cases cw.isEmpty <;> simp
              rw [if_pos (by simp [hcwf])]
              simp only [List.cons_append, List.nil_append]
              rw [wellTagged]
              simp only [hcwf]
              rw [wellTagged]
              rw [wellTagged_sweepContent]
              simp [h3]
      · rename_i hcond
        cases hsw : sweepGo src mwo st en n (i + 1) rest'
            (sweepNewCur st en i cw) with
        | error e =>
          rw [hsw] at h
          exact absurd h (by simp)
        | ok tl =>
          simp only [hsw, Except.ok.injEq] at h
          subst h
          have h3 := ih _ _ _ hsw
          by_cases hcw : cw.isEmpty = true
          · rw [if_neg (by simp [hcw])]
            simp only [List.nil_append]
            rw [wellTagged_sweepContent]
            cases hst : lookupA (i : Int) st with
            | none =>
              rw [sweepNewCur_stay st en i cw hst hcw, hcw] at h3
              simpa [hcw] using h3
            | some ss =>
              have hA : (!(sweepNewCur st en i cw).isEmpty) = false := by
                by_contra hAA
                apply hcond
                rw [Bool.and_eq_true]
                constructor
                · revert hAA
                  cases (!(sweepNewCur st en i cw).isEmpty) <;> simp
                · rw [Bool.or_eq_true]
                  exact Or.inr (by rw [hst]; rfl)
              rw [hA] at h3
              simpa [hcw] using h3
          · have hcwf : cw.isEmpty = false := by
              revert hcw
              cases cw.isEmpty <;> simp
            rw [if_pos (by simp [hcwf])]
            simp only [List.cons_append, List.nil_append]
            rw [wellTagged]
            simp only [hcwf]
            rw [wellTagged_sweepContent]
            have hA : (!(sweepNewCur st en i cw).isEmpty) = false := by
              by_contra hAA
              apply hcond
              rw [Bool.and_eq_true]
              constructor
              · revert hAA
                cases (!(sweepNewCur st en i cw).isEmpty) <;> simp
              · rw [Bool.or_eq_true]
                exact Or.inl (by rw [hcwf]; rfl)
            rw [hA] at h3
            simp [h3]

/-- C3: in every successful `process_sentence` output the wrapper tags
form a stack-balanced sequence with at most one wrapper open at a time —
at a boundary one close tag precedes at most one new open tag — and a
wrapper still open at end-of-text is force-closed. -/
theorem claim_C3 (vw : Viewer) (s : Hit) (numSent : Nat) (getHeader : Bool)
    (lang : String) (src : SentSource) (txt : String) (ws : List Word)
    (res : SentResult)
    (hsrc : s.source = some src) (htxt : src.text = some txt)
    (hne : txt ≠ "") (hws : src.words = some ws)
    (h : process_sentence vw s numSent getHeader lang = .ok res) :
    wellTagged res.pieces false = true := by
  unfold process_sentence at h
  rw [hsrc] at h
  dsimp only at h
  split at h
  · exact absurd h (by simp)
  · rw [htxt] at h
    dsimp only at h
    rw [if_neg (string_ne_length hne)] at h
    split at h
    · exact absurd h (by simp)
    · rw [hws] at h
      dsimp only at h
      split at h
      · exact absurd h (by simp)
      · rename_i pieces heq
        simp only [Except.ok.injEq] at h
        subst h
        have := sweep_tagged _ _ _ _ _ _ _ _ _ heq
        simpa using this

/-- Witness for C3 on a two-character sentence with one wrapped token. -/
theorem claim_C3_witness :
    wellTagged (SentResult.pieces
      ⟨some HVal.emptyObj, [Piece.raw 'a', Piece.raw 'b'], some true, "en"⟩)
      false = true :=
  claim_C3 ⟨[], [], fun _ => .null⟩
    ⟨some ⟨none, none, some "ab", some []⟩, none, none, none⟩ 1 false "en"
    ⟨none, none, some "ab", some []⟩ "ab" []
    ⟨some HVal.emptyObj, [Piece.raw 'a', Piece.raw 'b'], some true, "en"⟩
    rfl rfl (by decide) rfl rfl

end Tsakorpus
